import Mathlib

/-!
Distributed ThinLTO code generation (llvm/lib/DTLTO).

A shallow embedding of `llvm/lib/DTLTO/CodeGen.cpp` and of the local plugin
`llvm/lib/DTLTO/plugins/Local.cpp`, together with the plugin interface of
`llvm/include/llvm/DTLTO/Plugin.h`, and theorems about the unit registry, the
thin-link pass, the dispatch list, the flag mapper, the result harvester, the
cleanup of temporary files and the mock code generator.

Conventions of the embedding.
* C strings, `StringRef` and `std::string` are `String`; file contents are
  `String` as well (one character per byte).
* `llvm::Error` is the list of the error payloads that were joined, in
  joining order; the empty list is `Error::success()`.
* The file system, the diagnostic sink and the calls of `AddBufferFunc` are
  explicit state.
* Undefined behaviour and non-termination are the result `none`.
-/

namespace dtlto

/-! ## Part 1: definitions -/

/-! ### Support library pieces used by the sources -/

/-- Modelled from the spec: the digit table of `llvm::hexdigit` in upper case
(`llvm/ADT/StringExtras.h` is outside the sources at hand); the spec calls the
result `processIdHex`. -/
def hexdigit (X : Nat) : Char :=
  ['0', '1', '2', '3', '4', '5', '6', '7', '8', '9', 'A', 'B', 'C', 'D', 'E', 'F'].getD X '0'

/-- Modelled from the spec: the digit loop of `llvm::utohexstr`: prepends the
digits of `X`, least significant first; `fuel` bounds the sixteen digits of a
64-bit value. -/
def utohexstrLoop : Nat → Nat → List Char → List Char
  | 0, _, acc => acc
  | fuel + 1, X, acc =>
    if X = 0 then acc else utohexstrLoop fuel (X / 16) (hexdigit (X % 16) :: acc)

/-- Modelled from the spec: `llvm::utohexstr(uint64_t)` with its default
arguments (upper case, no padding): `"0"` for zero, otherwise the hexadecimal
digits without leading zeros. -/
def utohexstr (X : Nat) : String :=
  String.mk (utohexstrLoop 16 (X % 2 ^ 64) (if X % 2 ^ 64 = 0 then ['0'] else []))

/-- Modelled from the spec: `is_separator` of `llvm/lib/Support/Path.cpp` for
the POSIX path style. -/
def is_separator (c : Char) : Bool := c == '/'

/-- Modelled from the spec: `StringRef::find_first_of` for the separators:
the index of the first separator of `str`, counted from `pos`. -/
def find_first_sep : List Char → Nat → Option Nat
  | [], _ => none
  | c :: cs, pos =>
    if is_separator c then some pos else find_first_sep cs (pos + 1)

/-- Modelled from the spec: `root_dir_start` of `llvm/lib/Support/Path.cpp` for
the POSIX style: the position of the root directory of `str`, if it has one
(`//net/...` has it after the network name, `/...` at position 0). -/
def root_dir_start (str : List Char) : Option Nat :=
  match str with
  | c0 :: c1 :: c2 :: c3 :: rest =>
    if is_separator c0 && c0 == c1 && !is_separator c2 then
      find_first_sep (c2 :: c3 :: rest) 2
    else if is_separator c0 then some 0 else none
  | c0 :: _ => if is_separator c0 then some 0 else none
  | [] => none

/-- Modelled from the spec: the characters of `str` after its last separator
(all of `str` when it has none), which `filename_pos` finds with
`StringRef::find_last_of`. -/
def afterLastSep (str : List Char) : List Char :=
  (str.reverse.takeWhile (fun c => !is_separator c)).reverse

/-- Modelled from the spec: `filename_pos` of `llvm/lib/Support/Path.cpp` for
the POSIX style: where the last path component of `str` starts. -/
def filename_pos (str : List Char) : Nat :=
  match str.getLast? with
  | none => 0
  | some last =>
    if is_separator last then str.length - 1
    else
      let tail := afterLastSep str
      -- no separator at all, or the only one ends a leading "//"
      if tail.length = str.length then 0
      else if str.length - tail.length - 1 = 1 && is_separator (str.headD 'x') then 0
      else str.length - tail.length

/-- Modelled from the spec: the scan of `reverse_iterator::operator++` of
`llvm/lib/Support/Path.cpp` that skips trailing separators
down to, but not past, the root directory; `end_pos` counts down from the
length of the path. -/
def skipTrailingSeps (Path : List Char) (root_dir_pos : Option Nat) : Nat → Nat
  | 0 => 0
  | end_pos + 1 =>
    if some end_pos != root_dir_pos && is_separator (Path.getD end_pos 'x') then
      skipTrailingSeps Path root_dir_pos end_pos
    else end_pos + 1

/-- Modelled from the spec: `llvm::sys::path::filename` for the POSIX style,
the spec's `basename`: the last component of the path, `"."` for a path that
ends in a separator and `"/"` for a root directory. -/
def filename (path : String) : String :=
  let Path := path.data
  let root_dir_pos := root_dir_start Path
  let end_pos := skipTrailingSeps Path root_dir_pos Path.length
  let endsInSep :=
    match Path.getLast? with
    | some c => is_separator c
    | none => false
  let pastRoot :=
    match root_dir_pos with
    | none => true
    | some r => decide (end_pos - 1 > r)
  if endsInSep && pastRoot then "."
  else
    let start_pos := filename_pos (Path.take end_pos)
    String.mk ((Path.take end_pos).drop start_pos)

/-! ### Errors, files and diagnostics -/

/-- The payload of one `llvm::Error` created by the sources; the constructor
names the creation site and carries the data formatted into its message. -/
inductive ErrorInfo where
  /-- `"Can't make absolute path: " + EC.message()` (initBitcodeModulesMap). -/
  | cantMakeAbsolute (msg : String)
  /-- The error returned by `LTOObj.run` (thinLink). -/
  | ltoRunFailed (msg : String)
  /-- `"Executable path is empty"` (performCodegenWithPlugin). -/
  | executablePathEmpty
  /-- `"Failed to open the plugin library: %s, error: %s"`. -/
  | pluginOpenFailed (PluginPath : String) (ErrMsg : String)
  /-- `"Failed to get address of the symbol: dtltoPerformCodegen"`. -/
  | symbolNotFound
  /-- `"Failed to perform codegen with DTLTO plugin: %s, error code: %d"`. -/
  | pluginCodegenFailed (DbsKind : String) (Code : Int)
  /-- `"Codegen failed on distributed build system: %s."`. -/
  | codegenFailedOnDbs (DbsKind : String)
  /-- `errorCodeToError(std::errc::no_such_file_or_directory)` (harvest loop). -/
  | noSuchFileOrDirectory
  /-- `"Can't read file %s"` with the error code of the read (harvest loop). -/
  | cantReadFile (Path : String) (ec : String)
  deriving DecidableEq, Repr

/-- An `llvm::Error`: the joined payloads, `[]` being `Error::success()`. -/
abbrev Error := List ErrorInfo

/-- `llvm::joinErrors`: the payloads of the first error, then of the second. -/
def joinErrors (E1 E2 : Error) : Error := E1 ++ E2

/-- What a path names on disk: a readable file with its content, or something
that exists but cannot be read (the error code of the read is kept). -/
inductive FileEntry where
  | file (content : String)
  | unreadable (ec : String)
  deriving DecidableEq, Repr

/-- The file system: what each path names, and for which paths creating,
renaming onto or removing fails (with the message of the error code). -/
structure FileSystem where
  files : String → Option FileEntry
  denied : String → Option String

/-- `sys::fs::exists`. -/
def FileSystem.exists (FS : FileSystem) (Path : String) : Bool :=
  (FS.files Path).isSome

/-- `MemoryBuffer::getFile`: the content of the file, or the error code. -/
def FileSystem.getFile (FS : FileSystem) (Path : String) : Except String String :=
  match FS.files Path with
  | some (FileEntry.file content) => Except.ok content
  | some (FileEntry.unreadable ec) => Except.error ec
  | none => Except.error "No such file or directory"

/-- The file system with `Path` naming a file of the given content. -/
def FileSystem.write (FS : FileSystem) (Path content : String) : FileSystem :=
  { FS with files := fun p => if p = Path then some (FileEntry.file content) else FS.files p }

/-- The file system without `Path`. -/
def FileSystem.erase (FS : FileSystem) (Path : String) : FileSystem :=
  { FS with files := fun p => if p = Path then none else FS.files p }

/-- The mutable surroundings of a session: the file system, the messages sent
to `ConfigTy::emitError`, and the paths handed to `sys::fs::remove` by
`removeTempFiles`, both in call order. -/
structure WorldTy where
  FS : FileSystem
  Diags : List String
  Removals : List String

/-- `saveBuffer`: writes `FileBuffer` to a uniquely named temporary file and
renames it to `FilePath`. The temporary name is random; creating it and
renaming it fail together here, for the paths the file system denies. Returns
the new surroundings and the `bool` of the source. -/
def saveBuffer (W : WorldTy) (FileBuffer FilePath : String) : WorldTy × Bool :=
  match W.FS.denied FilePath with
  | some msg =>
    ({ W with Diags := W.Diags ++ ["Can't create file " ++ FilePath ++ ": " ++ msg] }, false)
  | none => ({ W with FS := W.FS.write FilePath FileBuffer }, true)

/-! ### The data model -/

/-- The plugin's work item `dtltoBitcodeNodeTy` (Plugin.h). No code of the
sources initialises a `dtltoBitcodeNodeTy` as a whole: a field that was never
written is `none`, which concerns `ImportsListSize`, `ImportsList` and
`TaskNumber`. -/
structure dtltoBitcodeNodeTy where
  ModuleId : String
  ModulePath : String
  ModuleSize : Nat
  SummaryIndexPath : String
  NativeObjectPath : String
  ImportsListSize : Option Nat
  ImportsList : Option (List String)
  TargetTriple : String
  TaskNumber : Option Nat
  deriving DecidableEq, Repr

/-- The registry's node `BitcodeNodeTy : dtltoBitcodeNodeTy`. -/
structure BitcodeNodeTy extends dtltoBitcodeNodeTy where
  /-- Node needs to be deleted after codegen. -/
  NeedsDeletion : Bool
  /-- Node is excluded from code generation. -/
  Excluded : Bool
  deriving DecidableEq, Repr

/-- The constructor `BitcodeNodeTy::BitcodeNodeTy`; `ProcessId` is
`sys::Process::getProcessId()`. -/
def BitcodeNodeTy.new (ProcessId : Nat) (ModId ModPath : String) (ModSize : Nat)
    (Triple : String) (InArchive : Bool) : BitcodeNodeTy :=
  let UID := "." ++ utohexstr ProcessId
  let AssociatedPath := fun (Ext : String) => ModPath ++ UID ++ Ext
  { ModuleId := ModId
    ModulePath := ModPath
    ModuleSize := ModSize
    SummaryIndexPath := AssociatedPath ".thinlto.bc"
    NativeObjectPath := AssociatedPath ".native.o"
    ImportsListSize := none
    ImportsList := none
    TargetTriple := Triple
    TaskNumber := none
    NeedsDeletion := InArchive
    Excluded := true }

/-- `BitcodeNodeTy::recordImports`: stores the strings of `V` as the import
array. The source writes `ImportsList` only; `ImportsListSize` is left as it
was. -/
def BitcodeNodeTy.recordImports (N : BitcodeNodeTy) (V : List String) : BitcodeNodeTy :=
  { N with ImportsList := some V }

/-- `BitcodeNodeMapTy = MapVector<StringRef, BitcodeNodeTy>`: the entries in
insertion order. -/
abbrev BitcodeNodeMapTy := List (String × BitcodeNodeTy)

/-- `MapVector::find`: the node stored under `Key`, `none` for `end()`. -/
def BitcodeNodeMapTy.find (M : BitcodeNodeMapTy) (Key : String) : Option BitcodeNodeTy :=
  match M with
  | [] => none
  | (k, v) :: rest => if k = Key then some v else BitcodeNodeMapTy.find rest Key

/-- Assignment through the reference `BcNodeMap.find(Key)->second`: replaces
the node stored under `Key`, keeping its position. -/
def BitcodeNodeMapTy.assign (M : BitcodeNodeMapTy) (Key : String) (V : BitcodeNodeTy) :
    BitcodeNodeMapTy :=
  match M with
  | [] => []
  | (k, v) :: rest =>
    if k = Key then (k, V) :: rest else (k, v) :: BitcodeNodeMapTy.assign rest Key V

/-- `MapVector::insert_or_assign`: a new key is appended, an existing key keeps
its position and gets the new node. -/
def BitcodeNodeMapTy.insert_or_assign (M : BitcodeNodeMapTy) (Key : String)
    (V : BitcodeNodeTy) : BitcodeNodeMapTy :=
  match M.find Key with
  | none => M ++ [(Key, V)]
  | some _ => M.assign Key V

/-- Modelled from the spec: `lto::InputFile::InputFileType` is declared
outside the sources at hand; only `SOLID_ARCHIVE_MEMBER` is named by them, the
spec's `isArchiveMember`. -/
inductive InputFileType where
  | SOLID_ARCHIVE_MEMBER
  | OTHER
  deriving DecidableEq, Repr

/-- Modelled from the spec: what the sources read from an `lto::InputFile`.
`ModuleIdentifier` is the identifier of its single bitcode module, which
`getName()` returns and `setModuleIdentifier` rewrites. -/
structure InputFile where
  ModuleIdentifier : String
  FileBuffer : String
  TargetTriple : String
  FileType : InputFileType
  deriving DecidableEq, Repr

/-- `lto::InputFile::getName`. -/
def InputFile.getName (Input : InputFile) : String := Input.ModuleIdentifier

/-- `dtlto::ConfigTy` (Config.h) without the diagnostic handler and the
allocator, which are part of the surroundings. -/
structure ConfigTy where
  Argv0 : String
  DbsKind : String
  DisableTempFilesRemoval : Bool
  InputFiles : List InputFile
  deriving DecidableEq, Repr

/-- The module identifier that `ConfigTy::addInput` gives an archive member:
its file name, a dot, the process id in hexadecimal, and `.o`. -/
def NewModuleId (ProcessId : Nat) (ModuleId : String) : String :=
  let UID := utohexstr ProcessId
  filename ModuleId ++ "." ++ UID ++ ".o"

/-- `ConfigTy::addInput`: an archive member gets a new module identifier and
its buffer is saved under that name; the input is then appended to
`InputFiles`. -/
def ConfigTy.addInput (ProcessId : Nat) (Cfg : ConfigTy) (W : WorldTy) (Input : InputFile) :
    ConfigTy × WorldTy :=
  let IsMemberOfArchive := decide (Input.FileType = InputFileType.SOLID_ARCHIVE_MEMBER)
  if IsMemberOfArchive then
    let ModuleId := Input.getName
    let MemoryBufferRef := Input.FileBuffer
    let NewId := NewModuleId ProcessId ModuleId
    let Input1 := { Input with ModuleIdentifier := NewId }
    let W1 := (saveBuffer W MemoryBufferRef NewId).1
    ({ Cfg with InputFiles := Cfg.InputFiles ++ [Input1] }, W1)
  else
    ({ Cfg with InputFiles := Cfg.InputFiles ++ [Input] }, W)

/-! ### The host, the whole-program analysis and the plugin -/

/-- One task slot of the whole-program analysis after `LTOObj.run`: entry
`Task` of the arrays `ModuleNames`, `SummaryIndexFiles` and
`ImportsFilesLists` of `thinLink`. A slot the analysis never wrote holds empty
values. -/
structure TaskSlot where
  ModuleName : String
  SummaryIndexFile : String
  ImportsFilesList : List String
  deriving DecidableEq, Repr

/-- Modelled from the spec: `llvm::FloatABI::ABIType`, declared outside the
sources at hand. -/
inductive FloatABI where
  | Default
  | Soft
  | Hard
  deriving DecidableEq, Repr

/-- Modelled from the spec: `llvm::Reloc::Model`, declared outside the sources
at hand. -/
inductive Reloc where
  | Static
  | PIC_
  | DynamicNoPIC
  | ROPI
  | RWPI
  | ROPI_RWPI
  deriving DecidableEq, Repr

/-- Modelled from the spec: `llvm::CodeModel::Model`, declared outside the
sources at hand. -/
inductive CodeModel where
  | Tiny
  | Small
  | Kernel
  | Medium
  | Large
  deriving DecidableEq, Repr

/-- Modelled from the spec: the fields of `llvm::TargetOptions` (declared
outside the sources at hand) that the flag mapper reads: address-significance
tables, function and data sections, unique basic-block section names and the
float ABI. -/
structure TargetOptions where
  EmitAddrsig : Bool
  FunctionSections : Bool
  DataSections : Bool
  UniqueBasicBlockSectionNames : Bool
  FloatABIType : FloatABI
  deriving DecidableEq, Repr

/-- Modelled from the spec: the fields of `lto::Config` (declared outside the
sources at hand) that the flag mapper reads: optimization level, relocation
model, code model, PGO mismatch warnings and context-sensitive
instrumentation. `OptLevel` is an `unsigned`; `RelocModel` and `CodeModel` are
`std::optional`. -/
structure LtoConfig where
  OptLevel : Nat
  Options : TargetOptions
  RelocModel : Option Reloc
  CodeModel : Option CodeModel
  PGOWarnMismatch : Bool
  RunCSIRInstr : Bool
  deriving DecidableEq, Repr

/-- The whole-program analysis `lto::LTO` as `thinLink` sees it: its
configuration, `getMaxTasks()`, and what `run` leaves behind through the two
callbacks: an error, or the contents of the task slots. -/
structure LTOTy where
  Config : LtoConfig
  MaxTasks : Nat
  run : Except String (Nat → TaskSlot)

/-- The entry point `dtltoPerformCodegenTy` of a plugin: from the backend
name, the work items and the arguments to the return code; it may write files
and emit diagnostics. -/
abbrev dtltoPerformCodegenTy :=
  String → List dtltoBitcodeNodeTy → List String → WorldTy → Int × WorldTy

/-- The platform of a session: the process id, whether `_WIN32` is defined,
the path functions of `llvm::sys` that the sources call with the current
directory and the executable in hand, and the dynamic loader. -/
structure HostTy where
  ProcessId : Nat
  isWin32 : Bool
  /-- `sys::fs::make_absolute` followed by `sys::path::remove_dots`. -/
  make_absolute : String → Except String String
  /-- `sys::fs::getMainExecutable(Argv0, nullptr)`. -/
  getMainExecutable : String → String
  /-- `sys::path::parent_path`. -/
  parent_path : String → String
  /-- `sys::path::append` of one component. -/
  append : String → String → String
  LLVM_PLUGIN_EXT : String
  /-- `sys::DynamicLibrary::getPermanentLibrary`: an error message, or the
  library, of which only `getAddressOfSymbol("dtltoPerformCodegen")` is used. -/
  getPermanentLibrary : String → Except String (Option dtltoPerformCodegenTy)

/-! ### Building the registry -/

/-- The loop of `initBitcodeModulesMap` over the input files: the returned
error and the registry as the loop left it. -/
def initBitcodeModulesMapLoop (Host : HostTy) :
    List InputFile → BitcodeNodeMapTy → Error × BitcodeNodeMapTy
  | [], BcNodeMap => ([], BcNodeMap)
  | Input :: rest, BcNodeMap =>
    let ModuleId := Input.getName
    match Host.make_absolute ModuleId with
    | Except.error msg => ([ErrorInfo.cantMakeAbsolute msg], BcNodeMap)
    | Except.ok ModulePath =>
      let IsMemberOfArchive := decide (Input.FileType = InputFileType.SOLID_ARCHIVE_MEMBER)
      let MbRef := Input.FileBuffer
      initBitcodeModulesMapLoop Host rest
        (BcNodeMap.insert_or_assign ModuleId
          (BitcodeNodeTy.new Host.ProcessId ModuleId ModulePath MbRef.length
            Input.TargetTriple IsMemberOfArchive))

/-- `initBitcodeModulesMap`: initializes the bitcode modules map from the list
of input files. -/
def initBitcodeModulesMap (Host : HostTy) (Cfg : ConfigTy) : Error × BitcodeNodeMapTy :=
  initBitcodeModulesMapLoop Host Cfg.InputFiles []

/-! ### The thin link -/

/-- The loop `for (unsigned I = 1; I != NumTasks; ++I)` of `thinLink`, with
`n` iterations left. Looking up a module name that is not a key dereferences
`end()`: the result is `none`. -/
def thinLinkLoop (Slots : Nat → TaskSlot) :
    Nat → Nat → BitcodeNodeMapTy × WorldTy → Option (BitcodeNodeMapTy × WorldTy)
  | 0, _, S => some S
  | n + 1, I, (BcNodeMap, W) =>
    let ModuleId := (Slots I).ModuleName
    -- Skip VTables. TaskNum == 0 is used for VTables
    if ModuleId = "" then thinLinkLoop Slots n (I + 1) (BcNodeMap, W)
    else
      match BcNodeMap.find ModuleId with
      | none => none
      | some ModuleNode =>
        let ModuleNode1 := { ModuleNode with TaskNumber := some I, Excluded := false }
        let W1 :=
          if (Slots I).SummaryIndexFile ≠ "" then
            (saveBuffer W (Slots I).SummaryIndexFile ModuleNode1.SummaryIndexPath).1
          else W
        let ModuleNode2 := ModuleNode1.recordImports (Slots I).ImportsFilesList
        thinLinkLoop Slots n (I + 1) (BcNodeMap.assign ModuleId ModuleNode2, W1)

/-- `thinLink`: runs the analysis and, if it succeeds, visits the task slots
`1 .. NumTasks - 1`. The result is the returned error with the registry and
the surroundings. With `NumTasks = 0` the loop reads slot 1 of empty arrays,
and with `NumTasks ≥ 2 ^ 32` the 32-bit counter never equals `NumTasks`: both
are `none`. -/
def thinLink (LTOObj : LTOTy) (BcNodeMap : BitcodeNodeMapTy) (W : WorldTy) :
    Option (Error × BitcodeNodeMapTy × WorldTy) :=
  let NumTasks := LTOObj.MaxTasks
  match LTOObj.run with
  | Except.error msg => some ([ErrorInfo.ltoRunFailed msg], BcNodeMap, W)
  | Except.ok Slots =>
    if NumTasks = 0 ∨ 2 ^ 32 ≤ NumTasks then none
    else
      match thinLinkLoop Slots (NumTasks - 1) 1 (BcNodeMap, W) with
      | none => none
      | some (BcNodeMap1, W1) => some ([], BcNodeMap1, W1)

/-! ### The flag mapper -/

/-- `mapCGOptionsToClangOptions`: maps code generation options to clang
options, appending to `Ops`. It always returns `Error::success()`; the result
here is the argument list. -/
def mapCGOptionsToClangOptions (isWin32 : Bool) (Config : LtoConfig) (Ops : List String) :
    List String :=
  Ops
  ++ ["-O" ++ toString Config.OptLevel]
  ++ (if Config.Options.EmitAddrsig then ["-faddrsig"] else [])
  ++ (if Config.Options.FunctionSections then ["-ffunction-sections"] else [])
  ++ (if Config.Options.DataSections then ["-fdata-sections"] else [])
  ++ (if Config.Options.UniqueBasicBlockSectionNames then
        ["-funique-basic-block-section-names"] else [])
  ++ (if Config.Options.FloatABIType = FloatABI.Hard then ["-ffp-model=hard"]
      else if Config.Options.FloatABIType = FloatABI.Soft then ["-ffp-model=soft"]
      else [])
  ++ (if Config.RelocModel = some Reloc.PIC_ then
        -- Windows target does not support -fpic
        (if isWin32 then [] else ["-fpic"])
      else if Config.RelocModel = some Reloc.ROPI then ["-fropi"]
      else if Config.RelocModel = some Reloc.RWPI then ["-frwpi"]
      else [])
  ++ (if Config.CodeModel = some CodeModel.Kernel then ["-mcmodel=kernel"]
      else if Config.CodeModel = some CodeModel.Large then ["-mcmodel=large"]
      else if Config.CodeModel = some CodeModel.Medium then ["-mcmodel=medium"]
      else if Config.CodeModel = some CodeModel.Small then ["-mcmodel=small"]
      else [])
  ++ ["-Wno-unused-command-line-argument"]
  ++ (if !Config.PGOWarnMismatch then ["-mllvm", "-no-pgo-warn-mismatch"] else [])
  ++ (if Config.RunCSIRInstr then ["-fcs-profile-generate"] else [])

/-! ### Dispatch -/

/-- The comparator `GtSizeOp` of `codeGenImpl`. -/
def GtSizeOp (L R : dtltoBitcodeNodeTy) : Bool := decide (L.ModuleSize > R.ModuleSize)

/-- The requirement of the C++ standard on a comparator handed to `std::sort`:
a strict weak ordering. -/
structure StrictWeakOrdering {α : Type} (comp : α → α → Bool) : Prop where
  irrefl : ∀ a, comp a a = false
  trans : ∀ a b c, comp a b = true → comp b c = true → comp a c = true
  equivTrans : ∀ a b c, comp a b = false → comp b a = false → comp b c = false →
    comp c b = false → comp a c = false ∧ comp c a = false

/-- What the C++ standard promises of `std::sort(first, last, comp)`, whose
implementation belongs to the standard library in use: for a strict weak
ordering the result is a rearrangement of the range in which no later element
is ordered before an earlier one. The order of equivalent elements is not
promised. -/
def StdSortContract {α : Type} (std_sort : (α → α → Bool) → List α → List α) : Prop :=
  ∀ comp, StrictWeakOrdering comp → ∀ l,
    (std_sort comp l).Perm l ∧ (std_sort comp l).Pairwise (fun a b => comp b a = false)

/-- The loop of `codeGenImpl` that fills `BitcodesList`: pointers to the nodes
that are not excluded, in registry order. -/
def collectBitcodesList (BcNodeMap : BitcodeNodeMapTy) : List dtltoBitcodeNodeTy :=
  BcNodeMap.foldl
    (fun BitcodesList BitcodeNode =>
      if BitcodeNode.2.Excluded then BitcodesList
      else BitcodesList ++ [BitcodeNode.2.todtltoBitcodeNodeTy])
    []

/-- `BitcodesList` of `codeGenImpl` after `std::sort` with `GtSizeOp`. -/
def sortedBitcodesList
    (std_sort : (dtltoBitcodeNodeTy → dtltoBitcodeNodeTy → Bool) →
      List dtltoBitcodeNodeTy → List dtltoBitcodeNodeTy)
    (BcNodeMap : BitcodeNodeMapTy) : List dtltoBitcodeNodeTy :=
  std_sort GtSizeOp (collectBitcodesList BcNodeMap)

/-- The call of the plugin's entry point as `performCodegenWithPlugin` makes
it: the work items, the arguments and the returned code. -/
structure PluginCallTy where
  BitcodesList : List dtltoBitcodeNodeTy
  Argv : List String
  Code : Int

/-- `StringRef(Cfg.DbsKind).split(':').first`. -/
def DbsNameOf (DbsKind : String) : String :=
  String.mk (DbsKind.data.takeWhile (fun c => c != ':'))

/-- The path of the plugin library as `performCodegenWithPlugin` builds it:
next to the directory of the executable, named after the backend. -/
def PluginPathOf (Host : HostTy) (Cfg : ConfigTy) (ExePath : String) : String :=
  let DbsName := DbsNameOf Cfg.DbsKind
  let Prefix := if Host.isWin32 then "DTLTO" else "../lib/libDTLTO"
  Host.append (Host.parent_path ExePath) (Prefix ++ DbsName ++ Host.LLVM_PLUGIN_EXT)

/-- `performCodegenWithPlugin`: resolves the plugin next to the executable and
calls its `dtltoPerformCodegen`. Returns the error, the surroundings and the
call that was made, if any. -/
def performCodegenWithPlugin (Host : HostTy) (Cfg : ConfigTy) (W : WorldTy)
    (BitcodesList : List dtltoBitcodeNodeTy) (Args : List String) :
    Error × WorldTy × Option PluginCallTy :=
  let ExePath := Host.getMainExecutable Cfg.Argv0
  if ExePath = "" then ([ErrorInfo.executablePathEmpty], W, none)
  else
    let PluginPath := PluginPathOf Host Cfg ExePath
    match Host.getPermanentLibrary PluginPath with
    | Except.error ErrMsg => ([ErrorInfo.pluginOpenFailed PluginPath ErrMsg], W, none)
    | Except.ok none => ([ErrorInfo.symbolNotFound], W, none)
    | Except.ok (some PerformCodegen) =>
      let R := PerformCodegen Cfg.DbsKind BitcodesList Args W
      let Call : PluginCallTy := { BitcodesList := BitcodesList, Argv := Args, Code := R.1 }
      if R.1 ≠ 0 then ([ErrorInfo.pluginCodegenFailed Cfg.DbsKind R.1], R.2, some Call)
      else ([], R.2, some Call)

/-! ### Harvesting -/

/-- One call of `AddBufferFunc(Task, ModuleName, MBuf)`. -/
structure AddedBufferTy where
  Task : Option Nat
  ModuleName : String
  Buffer : String
  deriving DecidableEq, Repr

/-- The state of the harvest loop of `codeGenImpl`: the nodes visited so far
(as the loop leaves them), the error `E` and the calls of `AddBufferFunc`. -/
structure HarvestTy where
  BcNodeMap : BitcodeNodeMapTy
  E : Error
  AddedBuffers : List AddedBufferTy

/-- The body of the harvest loop for one entry of the registry. -/
def harvestStep (FS : FileSystem) (H : HarvestTy) (Entry : String × BitcodeNodeTy) :
    HarvestTy :=
  let BitcodeNode := Entry.2
  if BitcodeNode.Excluded then { H with BcNodeMap := H.BcNodeMap ++ [Entry] }
  else if !FS.exists BitcodeNode.NativeObjectPath then
    { H with
      BcNodeMap := H.BcNodeMap ++ [Entry]
      E := joinErrors H.E [ErrorInfo.noSuchFileOrDirectory] }
  else
    match FS.getFile BitcodeNode.NativeObjectPath with
    | Except.error EC =>
      { H with
        BcNodeMap := H.BcNodeMap ++ [Entry]
        E := joinErrors H.E [ErrorInfo.cantReadFile BitcodeNode.NativeObjectPath EC] }
    | Except.ok ObjectBuffer =>
      { BcNodeMap := H.BcNodeMap ++ [(Entry.1, { BitcodeNode with Excluded := true })]
        E := H.E
        AddedBuffers := H.AddedBuffers ++
          [{ Task := BitcodeNode.TaskNumber
             ModuleName := BitcodeNode.ModuleId
             Buffer := ObjectBuffer }] }

/-- The harvest loop `for (auto &[ModuleId, BitcodeNode] : BcNodeMap)` of
`codeGenImpl`, entered with the error `E`. -/
def harvest (FS : FileSystem) (BcNodeMap : BitcodeNodeMapTy) (E : Error) : HarvestTy :=
  BcNodeMap.foldl (harvestStep FS) { BcNodeMap := [], E := E, AddedBuffers := [] }

/-! ### Cleanup -/

/-- The lambda `Remove` of `removeTempFiles`: `sys::fs::remove(Path, true)`,
which ignores a path that does not exist, and a diagnostic if it fails. -/
def Remove (W : WorldTy) (Path : String) : WorldTy :=
  let W1 := { W with Removals := W.Removals ++ [Path] }
  if !W.FS.exists Path then W1
  else
    match W.FS.denied Path with
    | some msg => { W1 with Diags := W1.Diags ++ ["Can't remove file " ++ Path ++ ": " ++ msg] }
    | none => { W1 with FS := W1.FS.erase Path }

/-- `BitcodeNodeTy::removeTempFiles`. -/
def BitcodeNodeTy.removeTempFiles (N : BitcodeNodeTy) (Cfg : ConfigTy) (W : WorldTy) :
    WorldTy :=
  if Cfg.DisableTempFilesRemoval then W
  else
    let W1 := Remove W N.SummaryIndexPath
    let W2 := Remove W1 N.NativeObjectPath
    if N.NeedsDeletion then Remove W2 N.ModulePath else W2

/-- The destructor of the scope guard `RemoveTempFiles` of `codeGenImpl`. -/
def RemoveTempFiles (Cfg : ConfigTy) (BcNodeMap : BitcodeNodeMapTy) (W : WorldTy) : WorldTy :=
  BcNodeMap.foldl (fun W1 Entry => Entry.2.removeTempFiles Cfg W1) W

/-! ### The session -/

/-- What one call of `codeGenImpl` leaves behind: the returned error, the
registry as it was when the function returned, the surroundings after the
scope guard ran, the call of the plugin (if one was made) and the calls of
`AddBufferFunc`. -/
structure OutcomeTy where
  Result : Error
  BcNodeMap : BitcodeNodeMapTy
  World : WorldTy
  PluginCall : Option PluginCallTy
  AddedBuffers : List AddedBufferTy

/-- The part of `codeGenImpl` that runs under the scope guard, from the call
of `thinLink` to the `return`. -/
def codeGenGuarded (Host : HostTy)
    (std_sort : (dtltoBitcodeNodeTy → dtltoBitcodeNodeTy → Bool) →
      List dtltoBitcodeNodeTy → List dtltoBitcodeNodeTy)
    (Cfg : ConfigTy) (LTOObj : LTOTy) (BcNodeMap : BitcodeNodeMapTy) (W : WorldTy) :
    Option OutcomeTy :=
  match thinLink LTOObj BcNodeMap W with
  | none => none
  | some (E0, BcNodeMap1, W1) =>
    if E0 ≠ [] then
      some { Result := E0, BcNodeMap := BcNodeMap1, World := W1, PluginCall := none,
             AddedBuffers := [] }
    else
      let Args := mapCGOptionsToClangOptions Host.isWin32 LTOObj.Config []
      let BitcodesList := sortedBitcodesList std_sort BcNodeMap1
      let P := performCodegenWithPlugin Host Cfg W1 BitcodesList Args
      let E := P.1
      if E ≠ [] then
        some { Result := joinErrors E [ErrorInfo.codegenFailedOnDbs Cfg.DbsKind],
               BcNodeMap := BcNodeMap1, World := P.2.1, PluginCall := P.2.2,
               AddedBuffers := [] }
      else
        let H := harvest P.2.1.FS BcNodeMap1 E
        some { Result := H.E, BcNodeMap := H.BcNodeMap, World := P.2.1,
               PluginCall := P.2.2, AddedBuffers := H.AddedBuffers }

/-- `codeGenImpl`: performs DTLTO code generation: builds the registry, runs
the thin link, maps the options, calls the plugin and harvests the objects.
The scope guard is constructed after the registry was built and removes the
temporary files when the function returns. -/
def codeGenImpl (Host : HostTy)
    (std_sort : (dtltoBitcodeNodeTy → dtltoBitcodeNodeTy → Bool) →
      List dtltoBitcodeNodeTy → List dtltoBitcodeNodeTy)
    (Cfg : ConfigTy) (LTOObj : LTOTy) (W : WorldTy) : Option OutcomeTy :=
  let Init := initBitcodeModulesMap Host Cfg
  if Init.1 ≠ [] then
    some { Result := Init.1, BcNodeMap := Init.2, World := W, PluginCall := none,
           AddedBuffers := [] }
  else
    match codeGenGuarded Host std_sort Cfg LTOObj Init.2 W with
    | none => none
    | some Out => some { Out with World := RemoveTempFiles Cfg Out.BcNodeMap Out.World }

/-! ### Reference instances

Concrete hosts, sorts, backends and inputs on which the theorems below are
exercised. -/

/-- A sort that meets `StdSortContract` and keeps equivalent elements in their
input order: insertion sort. -/
def insertionStdSort {α : Type} (comp : α → α → Bool) (l : List α) : List α :=
  List.insertionSort (fun a b => comp b a = false) l

/-- A sort that meets `StdSortContract` and reverses the input order of
equivalent elements: insertion sort of the reversed range. -/
def reversingStdSort {α : Type} (comp : α → α → Bool) (l : List α) : List α :=
  List.insertionSort (fun a b => comp b a = false) l.reverse

/-- The helper `dtltoPerformMockCodegen` of `plugins/Local.cpp`: creates each
item's native object file with the item's module id as content and returns 0.
The file is opened with `CD_CreateNew`, which fails for a path that exists;
the failure is reported and nothing is written. -/
def dtltoPerformMockCodegen (W : WorldTy) (BitcodeNodes : List dtltoBitcodeNodeTy) :
    Int × WorldTy :=
  let createFile := fun (W1 : WorldTy) (Path Content : String) =>
    if W1.FS.exists Path || (W1.FS.denied Path).isSome then
      { W1 with Diags := W1.Diags ++ ["Error creating file."] }
    else { W1 with FS := W1.FS.write Path Content }
  (0, BitcodeNodes.foldl (fun W1 N => createFile W1 N.NativeObjectPath N.ModuleId) W)

/-- A backend that produces the objects like the mock code generator. -/
def mockBackend : dtltoPerformCodegenTy :=
  fun _ BitcodeNodes _ W => dtltoPerformMockCodegen W BitcodeNodes

/-- A backend that produces the objects like the mock code generator and then
reports failure with code 1. -/
def failingBackend : dtltoPerformCodegenTy :=
  fun _ BitcodeNodes _ W => (1, (dtltoPerformMockCodegen W BitcodeNodes).2)

/-- A backend that produces no object for the module `Skip`, the objects of
the other items, and returns `Code`. -/
def skippingBackend (Skip : String) (Code : Int) : dtltoPerformCodegenTy :=
  fun _ BitcodeNodes _ W =>
    (Code, (dtltoPerformMockCodegen W (BitcodeNodes.filter (fun N => N.ModuleId ≠ Skip))).2)

/-- A POSIX host with process id `0x1F` whose loader resolves every plugin
path to `Backend`. -/
def hostWith (Backend : dtltoPerformCodegenTy) : HostTy :=
  { ProcessId := 31
    isWin32 := false
    make_absolute := fun p => Except.ok ("/w/" ++ p)
    getMainExecutable := fun _ => "/usr/bin/ld.lld"
    parent_path := fun _ => "/usr/bin"
    append := fun a b => a ++ "/" ++ b
    LLVM_PLUGIN_EXT := ".so"
    getPermanentLibrary := fun _ => Except.ok (some Backend) }

/-- An empty file system on which every operation is allowed, no diagnostics
and no removals yet. -/
def emptyWorld : WorldTy :=
  { FS := { files := fun _ => none, denied := fun _ => none }, Diags := [], Removals := [] }

/-- A regular (non-archive) bitcode input of `Size` bytes. -/
def bitcodeInput (Name : String) (Size : Nat) : InputFile :=
  { ModuleIdentifier := Name
    FileBuffer := String.mk (List.replicate Size 'b')
    TargetTriple := "x86_64-linux-gnu"
    FileType := InputFileType.OTHER }

/-- An archive member as the linker hands it to `addInput`. -/
def archiveMember (Name : String) (Size : Nat) : InputFile :=
  { ModuleIdentifier := Name
    FileBuffer := String.mk (List.replicate Size 'b')
    TargetTriple := "x86_64-linux-gnu"
    FileType := InputFileType.SOLID_ARCHIVE_MEMBER }

/-- A session configuration for the backend `local` with the given inputs. -/
def configOf (Inputs : List InputFile) : ConfigTy :=
  { Argv0 := "ld.lld", DbsKind := "local", DisableTempFilesRemoval := false,
    InputFiles := Inputs }

/-- The options of a default `lto::Config`. -/
def defaultLtoConfig : LtoConfig :=
  { OptLevel := 2
    Options := { EmitAddrsig := false, FunctionSections := false, DataSections := false,
                 UniqueBasicBlockSectionNames := false, FloatABIType := FloatABI.Default }
    RelocModel := none
    CodeModel := none
    PGOWarnMismatch := true
    RunCSIRInstr := false }

/-- Task slots that name the modules `Names`, in this order, in the slots
`1, 2, ...`, each with a one-byte summary index and no imports; slot 0 carries
no module name. -/
def slotsSelecting (Names : List String) : Nat → TaskSlot :=
  fun Task =>
    match Task with
    | 0 => { ModuleName := "", SummaryIndexFile := "", ImportsFilesList := [] }
    | I + 1 =>
      { ModuleName := Names.getD I "", SummaryIndexFile := "i", ImportsFilesList := [] }

/-- An analysis that succeeds with the task slots `slotsSelecting Names`. -/
def ltoSelecting (Names : List String) : LTOTy :=
  { Config := defaultLtoConfig
    MaxTasks := Names.length + 1
    run := Except.ok (slotsSelecting Names) }

/-- Scenario A of the spec: three non-archive units of sizes 10, 100 and 50,
registered in this order. -/
def scenarioAConfig : ConfigTy :=
  configOf [bitcodeInput "a.bc" 10, bitcodeInput "b.bc" 100, bitcodeInput "c.bc" 50]

/-- The analysis of scenario A: all three units are selected for codegen. -/
def scenarioALTO : LTOTy := ltoSelecting ["a.bc", "b.bc", "c.bc"]

/-- Two units of the same size 7, registered as `first.bc` then `second.bc`. -/
def tieConfig : ConfigTy :=
  configOf [bitcodeInput "first.bc" 7, bitcodeInput "second.bc" 7]

/-- The analysis for `tieConfig`: both units are selected. -/
def tieLTO : LTOTy := ltoSelecting ["first.bc", "second.bc"]

/-- Every argument the flag mapper can append, in the order in which the
source appends them. -/
def clangOptionsInSourceOrder (OptLevel : Nat) : List String :=
  ["-O" ++ toString OptLevel]
  ++ ["-faddrsig"] ++ ["-ffunction-sections"] ++ ["-fdata-sections"]
  ++ ["-funique-basic-block-section-names"]
  ++ ["-ffp-model=hard", "-ffp-model=soft"]
  ++ ["-fpic", "-fropi", "-frwpi"]
  ++ ["-mcmodel=kernel", "-mcmodel=large", "-mcmodel=medium", "-mcmodel=small"]
  ++ ["-Wno-unused-command-line-argument"]
  ++ ["-mllvm", "-no-pgo-warn-mismatch"]
  ++ ["-fcs-profile-generate"]

/-- An optimization config with PGO mismatch warnings disabled and context
sensitive instrumentation requested, everything else as by default. -/
def instrumentedLtoConfig : LtoConfig :=
  { defaultLtoConfig with PGOWarnMismatch := false, RunCSIRInstr := true }

/-- A registry is well formed when its keys are pairwise distinct and every
node is stored under its own module id. -/
def BitcodeNodeMapTy.WellFormed (M : BitcodeNodeMapTy) : Prop :=
  (M.map Prod.fst).Nodup ∧ ∀ e ∈ M, e.2.ModuleId = e.1

/-- A registry is fresh when no node of it was selected yet: every node is
excluded and has no task number. -/
def BitcodeNodeMapTy.Fresh (M : BitcodeNodeMapTy) : Prop :=
  ∀ e ∈ M, e.2.Excluded = true ∧ e.2.TaskNumber = none

/-- In a registry that the thin link may have visited, an excluded node has no
task number. -/
def BitcodeNodeMapTy.ExcludedUnnumbered (M : BitcodeNodeMapTy) : Prop :=
  ∀ e ∈ M, e.2.Excluded = true → e.2.TaskNumber = none

/-- The node that `thinLink` leaves for a node `N` that it visited for task
slot `I` with the import list `V`. -/
def visitedNode (N : BitcodeNodeTy) (I : Nat) (V : List String) : BitcodeNodeTy :=
  ({ N with TaskNumber := some I, Excluded := false } : BitcodeNodeTy).recordImports V

/-- Scenario A run on the host with the mock backend and insertion sort. -/
def scenarioAOutcome : Option OutcomeTy :=
  codeGenImpl (hostWith mockBackend) insertionStdSort scenarioAConfig scenarioALTO emptyWorld

/-- The two units of equal size run on the host with the mock backend and the
sort that reverses equivalent elements. -/
def tieOutcome : Option OutcomeTy :=
  codeGenImpl (hostWith mockBackend) reversingStdSort tieConfig tieLTO emptyWorld

/-- Three units registered as `a.bc`, `b.bc`, `c.bc` of which the analysis
selects only `a.bc` and `c.bc`. -/
def partlySelectedLTO : LTOTy := ltoSelecting ["c.bc", "a.bc"]

/-- Two archive members whose names have the same file name `a.o`, taken from
two different archives and handed to `addInput` in one session. -/
def twoArchivesConfig : ConfigTy × WorldTy :=
  let R := (configOf []).addInput 31 emptyWorld (archiveMember "lib1/a.o" 4)
  R.1.addInput 31 R.2 (archiveMember "lib2/a.o" 6)

/-- Scenario B of the spec: the member `a.o` of the archive `lib.a` handed to
`addInput`. The archive is not among the things `addInput` reads. -/
def scenarioBConfig : ConfigTy × WorldTy :=
  (configOf []).addInput 31 emptyWorld (archiveMember "a.o" 4)

/-- The harvest of one registry entry in the spec's words: a unit that is not
excluded and whose native object is a readable file becomes excluded; every
other entry stays as it is. -/
def harvestedEntry (FS : FileSystem) (e : String × BitcodeNodeTy) : String × BitcodeNodeTy :=
  if e.2.Excluded then e
  else
    match FS.files e.2.NativeObjectPath with
    | some (FileEntry.file _) => (e.1, { e.2 with Excluded := true })
    | _ => e

/-- The error that the harvest records for one registry entry in the spec's
words: none for an excluded unit or a readable object, the missing-output
error for an absent object, the read error for an unreadable one. -/
def harvestError (FS : FileSystem) (e : String × BitcodeNodeTy) : Option ErrorInfo :=
  if e.2.Excluded then none
  else
    match FS.files e.2.NativeObjectPath with
    | none => some ErrorInfo.noSuchFileOrDirectory
    | some (FileEntry.unreadable ec) => some (ErrorInfo.cantReadFile e.2.NativeObjectPath ec)
    | some (FileEntry.file _) => none

/-- The buffer that the harvest delivers for one registry entry in the spec's
words: the content of the native object of a unit that is not excluded, with
the unit's task number and id. -/
def harvestedBuffer (FS : FileSystem) (e : String × BitcodeNodeTy) : Option AddedBufferTy :=
  if e.2.Excluded then none
  else
    match FS.files e.2.NativeObjectPath with
    | some (FileEntry.file content) =>
      some { Task := e.2.TaskNumber, ModuleName := e.2.ModuleId, Buffer := content }
    | _ => none

/-- The two units of equal size run on the host whose backend writes the
objects and then fails with code 1. -/
def failedOutcome : Option OutcomeTy :=
  codeGenImpl (hostWith failingBackend) insertionStdSort tieConfig tieLTO emptyWorld

/-- The surroundings of `failedOutcome` at the moment the backend returned. -/
def failedBackendWorld : Option WorldTy :=
  (thinLink tieLTO (initBitcodeModulesMap (hostWith failingBackend) tieConfig).2
      emptyWorld).map
    (fun R =>
      (performCodegenWithPlugin (hostWith failingBackend) tieConfig R.2.2
        (sortedBitcodesList insertionStdSort R.2.1)
        (mapCGOptionsToClangOptions false tieLTO.Config [])).2.1)

/-- Scenario A run on the host whose backend succeeds but produces no object
for `b.bc`. -/
def skippedOutcome : Option OutcomeTy :=
  codeGenImpl (hostWith (skippingBackend "b.bc" 0)) insertionStdSort scenarioAConfig
    scenarioALTO emptyWorld

/-- The file system of `skippedOutcome` at the moment the backend returned,
from the registry and the surroundings that the thin link left. -/
def skippedBackendFS (M1 : BitcodeNodeMapTy) (W1 : WorldTy) : FileSystem :=
  (performCodegenWithPlugin (hostWith (skippingBackend "b.bc" 0)) scenarioAConfig W1
    (sortedBitcodesList insertionStdSort M1)
    (mapCGOptionsToClangOptions (hostWith (skippingBackend "b.bc" 0)).isWin32
      scenarioALTO.Config [])).2.1.FS

/-! ### The local plugin (plugins/Local.cpp) -/

/-- The tools of the host that the local plugin calls: the program lookup and
the child processes. -/
structure LocalToolsTy where
  /-- `sys::findProgramByName`: the path of the program, or the value and the
  message of the error code. -/
  findProgramByName : String → Except (Int × String) String
  /-- `sys::ExecuteAndWait(Program, Args, ...)`: the exit code, the error
  message and the surroundings after the child process ran. -/
  ExecuteAndWait : String → List String → WorldTy → Int × String × WorldTy

/-- The command line that a worker of `dtltoPerformCodegen` builds for one
work item. -/
def clangCommand (CommonArgs : List String) (Node : dtltoBitcodeNodeTy) : List String :=
  let IdxArg := "-fthinlto-index=" ++ Node.SummaryIndexPath
  CommonArgs ++
    ["-Wno-invalid-or-nonexistent-directory", "-c", "-x", "ir", IdxArg, "-target",
     Node.TargetTriple, "-o", Node.NativeObjectPath, Node.ModuleId]

/-- The entry point `dtltoPerformCodegen` of `plugins/Local.cpp`. It looks up
`clang` first and returns the value of the lookup's error code if that fails;
then a backend name that contains `::test` selects the mock code generator;
otherwise clang runs once per work item and the result is 1 if a child process
failed, after each failure was reported. The workers of the thread pool take
the items from a shared counter; here one worker takes them in order. -/
def dtltoPerformCodegen (Tools : LocalToolsTy) : dtltoPerformCodegenTy :=
  fun DbsName BitcodeNodes Argv W =>
    match Tools.findProgramByName "clang" with
    | Except.error (Value, Message) =>
      (Value, { W with Diags := W.Diags ++ ["Failed to find clang: " ++ Message] })
    | Except.ok ClangPath =>
      let CommonArgs := ClangPath :: Argv
      if decide ("::test".data <:+: DbsName.data) then
        dtltoPerformMockCodegen W BitcodeNodes
      else
        let R := BitcodeNodes.foldl
          (fun (S : List String × WorldTy) Node =>
            let X := Tools.ExecuteAndWait ClangPath (clangCommand CommonArgs Node) S.2
            if X.1 ≠ 0 then (S.1 ++ [ClangPath ++ ": error: " ++ X.2.1], X.2.2)
            else (S.1, X.2.2))
          ([], W)
        if R.1 ≠ [] then (1, { R.2 with Diags := R.2.Diags ++ R.1 }) else (0, R.2)

/-- Tools of a host on which `clang` is found and every child process
succeeds without touching the surroundings. -/
def toolsWithClang : LocalToolsTy :=
  { findProgramByName := fun _ => Except.ok "/usr/bin/clang"
    ExecuteAndWait := fun _ _ W => (0, "", W) }

/-- Tools of a host on which no program is found: the lookup fails with the
error code 2. -/
def toolsWithoutClang : LocalToolsTy :=
  { findProgramByName := fun _ => Except.error (2, "No such file or directory")
    ExecuteAndWait := fun _ _ W => (0, "", W) }

/-- Two work items as the registry builds them for `first.bc` and `second.bc`
in the process `0x1F`. -/
def twoItems : List dtltoBitcodeNodeTy :=
  [(BitcodeNodeTy.new 31 "first.bc" "/w/first.bc" 7 "x86_64-linux-gnu"
      false).todtltoBitcodeNodeTy,
   (BitcodeNodeTy.new 31 "second.bc" "/w/second.bc" 7 "x86_64-linux-gnu"
      false).todtltoBitcodeNodeTy]

/-- Surroundings in which the native object of `first.bc` exists already, with
the content `old`. -/
def staleObjectWorld : WorldTy :=
  { emptyWorld with FS := emptyWorld.FS.write "/w/first.bc.1F.native.o" "old" }

/-- Scenario C of the spec: two units, the backend `local::test`, the local
plugin on a host with clang. -/
def scenarioCOutcome : Option OutcomeTy :=
  codeGenImpl (hostWith (dtltoPerformCodegen toolsWithClang)) insertionStdSort
    { tieConfig with DbsKind := "local::test" } tieLTO emptyWorld

/-! ### Further definitions for the theorems -/

/-- The paths whose removal `cleanup()` attempts for one unit in the spec's
words: its summary index path and its native object path, and its module path
if the unit needs deletion. -/
def tempFilesOf (N : BitcodeNodeTy) : List String :=
  [N.SummaryIndexPath, N.NativeObjectPath] ++ (if N.NeedsDeletion then [N.ModulePath] else [])

/-- The plugins of the host leave the record of the calls of `sys::fs::remove`
alone: that record belongs to `removeTempFiles`. -/
def HostTy.BackendKeepsRemovals (Host : HostTy) : Prop :=
  ∀ Path PerformCodegen, Host.getPermanentLibrary Path = Except.ok (some PerformCodegen) →
    ∀ DbsName BitcodeNodes Argv W,
      (PerformCodegen DbsName BitcodeNodes Argv W).2.Removals = W.Removals

/-- The derived paths of a unit in the spec's words: the module path, a dot,
the process id in hexadecimal and the extension. -/
def BitcodeNodeTy.DerivedPaths (ProcessId : Nat) (N : BitcodeNodeTy) : Prop :=
  N.SummaryIndexPath = N.ModulePath ++ "." ++ utohexstr ProcessId ++ ".thinlto.bc"
  ∧ N.NativeObjectPath = N.ModulePath ++ "." ++ utohexstr ProcessId ++ ".native.o"

/-- A host on which `make_absolute` fails for the relative path `b.bc` (the
current directory cannot be determined any more) and leaves every other path
as it is. -/
def hostLosingDirectory : HostTy :=
  { hostWith mockBackend with
    make_absolute := fun p =>
      if p = "b.bc" then Except.error "No such file or directory" else Except.ok p }

/-- A session in which the archive member `lib/a.o` was handed to `addInput`,
which saved its copy as `a.o.1F.o`, followed by the bitcode file `b.bc`. -/
def memberThenFile : ConfigTy × WorldTy :=
  let R := (configOf []).addInput 31 emptyWorld (archiveMember "lib/a.o" 4)
  R.1.addInput 31 R.2 (bitcodeInput "b.bc" 10)

/-- The session `memberThenFile` run on the host that fails to make `b.bc`
absolute. -/
def lostDirectoryOutcome : Option OutcomeTy :=
  codeGenImpl hostLosingDirectory insertionStdSort memberThenFile.1 scenarioALTO
    memberThenFile.2

/-- Task slots for scenario A in which `a.bc` (slot 1) imports `c.bc` and
`b.bc`, `b.bc` (slot 2) imports nothing and `c.bc` (slot 3) imports `a.bc`. -/
def importingSlots : Nat → TaskSlot :=
  fun Task =>
    match Task with
    | 1 => { ModuleName := "a.bc", SummaryIndexFile := "i",
             ImportsFilesList := ["c.bc", "b.bc"] }
    | 2 => { ModuleName := "b.bc", SummaryIndexFile := "i", ImportsFilesList := [] }
    | 3 => { ModuleName := "c.bc", SummaryIndexFile := "i", ImportsFilesList := ["a.bc"] }
    | _ => { ModuleName := "", SummaryIndexFile := "", ImportsFilesList := [] }

/-- The analysis with the task slots `importingSlots`. -/
def importingLTO : LTOTy :=
  { Config := defaultLtoConfig, MaxTasks := 4, run := Except.ok importingSlots }

/-- Scenario A with the analysis `importingLTO`. -/
def importingOutcome : Option OutcomeTy :=
  codeGenImpl (hostWith mockBackend) insertionStdSort scenarioAConfig importingLTO emptyWorld

/-! ## Part 2: theorems -/

/-! ### The flag mapper -/

theorem dashO_ne (s t : String) (h : t.data.take 2 ≠ ['-', 'O']) : "-O" ++ s ≠ t := by
  intro e
  apply h
  rw [← e]
  simp [String.data_append]

theorem clangOptionsInSourceOrder_nodup (n : Nat) : (clangOptionsInSourceOrder n).Nodup := by
  unfold clangOptionsInSourceOrder
  simp only [List.singleton_append, List.cons_append, List.nil_append]
  rw [List.nodup_cons]
  refine ⟨?_, by decide⟩
  simp only [List.mem_cons, List.mem_singleton, List.not_mem_nil, or_false, not_or]
  refine ⟨?_, ?_, ?_, ?_, ?_, ?_, ?_, ?_, ?_, ?_, ?_, ?_, ?_, ?_, ?_, ?_, ?_⟩ <;>
    exact dashO_ne _ _ (by decide)

theorem mapCG_sublist (w : Bool) (Config : LtoConfig) :
    (mapCGOptionsToClangOptions w Config []).Sublist
      (clangOptionsInSourceOrder Config.OptLevel) := by
  unfold mapCGOptionsToClangOptions clangOptionsInSourceOrder
  rw [List.nil_append]
  repeat' apply List.Sublist.append
  all_goals (try split_ifs) <;> simp


theorem mem_mapCG (Config : LtoConfig) (a : String) :
    a ∈ mapCGOptionsToClangOptions false Config [] ↔
      a = "-O" ++ toString Config.OptLevel
      ∨ (Config.Options.EmitAddrsig = true ∧ a = "-faddrsig")
      ∨ (Config.Options.FunctionSections = true ∧ a = "-ffunction-sections")
      ∨ (Config.Options.DataSections = true ∧ a = "-fdata-sections")
      ∨ (Config.Options.UniqueBasicBlockSectionNames = true ∧
          a = "-funique-basic-block-section-names")
      ∨ (Config.Options.FloatABIType = FloatABI.Hard ∧ a = "-ffp-model=hard")
      ∨ (Config.Options.FloatABIType = FloatABI.Soft ∧ a = "-ffp-model=soft")
      ∨ (Config.RelocModel = some Reloc.PIC_ ∧ a = "-fpic")
      ∨ (Config.RelocModel = some Reloc.ROPI ∧ a = "-fropi")
      ∨ (Config.RelocModel = some Reloc.RWPI ∧ a = "-frwpi")
      ∨ (Config.CodeModel = some CodeModel.Kernel ∧ a = "-mcmodel=kernel")
      ∨ (Config.CodeModel = some CodeModel.Large ∧ a = "-mcmodel=large")
      ∨ (Config.CodeModel = some CodeModel.Medium ∧ a = "-mcmodel=medium")
      ∨ (Config.CodeModel = some CodeModel.Small ∧ a = "-mcmodel=small")
      ∨ a = "-Wno-unused-command-line-argument"
      ∨ (Config.PGOWarnMismatch = false ∧ (a = "-mllvm" ∨ a = "-no-pgo-warn-mismatch"))
      ∨ (Config.RunCSIRInstr = true ∧ a = "-fcs-profile-generate") := by
  obtain ⟨N, ⟨o1, o2, o3, o4, fl⟩, rm, cm, pgo, cs⟩ := Config
  unfold mapCGOptionsToClangOptions
  simp only [List.nil_append, List.mem_append, List.mem_singleton]
  have hfl : (a ∈ (if fl = FloatABI.Hard then ["-ffp-model=hard"]
      else if fl = FloatABI.Soft then ["-ffp-model=soft"] else [])) ↔
      ((fl = FloatABI.Hard ∧ a = "-ffp-model=hard") ∨ (fl = FloatABI.Soft ∧ a = "-ffp-model=soft")) := by
    cases fl <;> simp
  have hrm : (a ∈ (if rm = some Reloc.PIC_ then (if false = true then [] else ["-fpic"])
      else if rm = some Reloc.ROPI then ["-fropi"]
      else if rm = some Reloc.RWPI then ["-frwpi"] else [])) ↔
      ((rm = some Reloc.PIC_ ∧ a = "-fpic") ∨ (rm = some Reloc.ROPI ∧ a = "-fropi")
        ∨ (rm = some Reloc.RWPI ∧ a = "-frwpi")) := by
    rcases rm with _ | r
    · simp
    · cases r <;> simp
  have hcm : (a ∈ (if cm = some CodeModel.Kernel then ["-mcmodel=kernel"]
      else if cm = some CodeModel.Large then ["-mcmodel=large"]
      else if cm = some CodeModel.Medium then ["-mcmodel=medium"]
      else if cm = some CodeModel.Small then ["-mcmodel=small"] else [])) ↔
      ((cm = some CodeModel.Kernel ∧ a = "-mcmodel=kernel")
        ∨ (cm = some CodeModel.Large ∧ a = "-mcmodel=large")
        ∨ (cm = some CodeModel.Medium ∧ a = "-mcmodel=medium")
        ∨ (cm = some CodeModel.Small ∧ a = "-mcmodel=small")) := by
    rcases cm with _ | c
    · simp
    · cases c <;> simp
  have hb : ∀ (c : Bool) (x : String), a ∈ (if c = true then [x] else []) ↔ (c = true ∧ a = x) := by
    intro c x
    cases c <;> simp
  have hpgo : a ∈ (if (!pgo) = true then ["-mllvm", "-no-pgo-warn-mismatch"] else []) ↔
      (pgo = false ∧ (a = "-mllvm" ∨ a = "-no-pgo-warn-mismatch")) := by
    cases pgo <;> simp
  simp only [hfl, hrm, hcm, hb, hpgo, or_assoc]


theorem dashO_lits (n : Nat) :
    "-faddrsig" ≠ "-O" ++ toString n ∧ "-ffunction-sections" ≠ "-O" ++ toString n
    ∧ "-fdata-sections" ≠ "-O" ++ toString n
    ∧ "-funique-basic-block-section-names" ≠ "-O" ++ toString n
    ∧ "-ffp-model=hard" ≠ "-O" ++ toString n ∧ "-ffp-model=soft" ≠ "-O" ++ toString n
    ∧ "-fpic" ≠ "-O" ++ toString n ∧ "-fropi" ≠ "-O" ++ toString n
    ∧ "-frwpi" ≠ "-O" ++ toString n
    ∧ "-mcmodel=kernel" ≠ "-O" ++ toString n ∧ "-mcmodel=large" ≠ "-O" ++ toString n
    ∧ "-mcmodel=medium" ≠ "-O" ++ toString n ∧ "-mcmodel=small" ≠ "-O" ++ toString n
    ∧ "-Wno-unused-command-line-argument" ≠ "-O" ++ toString n
    ∧ "-mllvm" ≠ "-O" ++ toString n ∧ "-no-pgo-warn-mismatch" ≠ "-O" ++ toString n
    ∧ "-fcs-profile-generate" ≠ "-O" ++ toString n := by
  refine ⟨?_, ?_, ?_, ?_, ?_, ?_, ?_, ?_, ?_, ?_, ?_, ?_, ?_, ?_, ?_, ?_, ?_⟩ <;>
    exact (dashO_ne _ _ (by decide)).symm

/-- C9: on a non-Windows host the flag mapper emits each argument of its table
exactly when the argument's condition holds, nothing else, and nothing twice. -/
theorem mapCGOptionsToClangOptions_contents (Config : LtoConfig) :
    ("-O" ++ toString Config.OptLevel) ∈ mapCGOptionsToClangOptions false Config []
    ∧ ("-faddrsig" ∈ mapCGOptionsToClangOptions false Config [] ↔
        Config.Options.EmitAddrsig = true)
    ∧ ("-ffunction-sections" ∈ mapCGOptionsToClangOptions false Config [] ↔
        Config.Options.FunctionSections = true)
    ∧ ("-fdata-sections" ∈ mapCGOptionsToClangOptions false Config [] ↔
        Config.Options.DataSections = true)
    ∧ ("-funique-basic-block-section-names" ∈ mapCGOptionsToClangOptions false Config [] ↔
        Config.Options.UniqueBasicBlockSectionNames = true)
    ∧ ("-ffp-model=hard" ∈ mapCGOptionsToClangOptions false Config [] ↔
        Config.Options.FloatABIType = FloatABI.Hard)
    ∧ ("-ffp-model=soft" ∈ mapCGOptionsToClangOptions false Config [] ↔
        Config.Options.FloatABIType = FloatABI.Soft)
    ∧ ("-fpic" ∈ mapCGOptionsToClangOptions false Config [] ↔
        Config.RelocModel = some Reloc.PIC_)
    ∧ ("-fropi" ∈ mapCGOptionsToClangOptions false Config [] ↔
        Config.RelocModel = some Reloc.ROPI)
    ∧ ("-frwpi" ∈ mapCGOptionsToClangOptions false Config [] ↔
        Config.RelocModel = some Reloc.RWPI)
    ∧ ("-mcmodel=kernel" ∈ mapCGOptionsToClangOptions false Config [] ↔
        Config.CodeModel = some CodeModel.Kernel)
    ∧ ("-mcmodel=large" ∈ mapCGOptionsToClangOptions false Config [] ↔
        Config.CodeModel = some CodeModel.Large)
    ∧ ("-mcmodel=medium" ∈ mapCGOptionsToClangOptions false Config [] ↔
        Config.CodeModel = some CodeModel.Medium)
    ∧ ("-mcmodel=small" ∈ mapCGOptionsToClangOptions false Config [] ↔
        Config.CodeModel = some CodeModel.Small)
    ∧ (["-mllvm", "-no-pgo-warn-mismatch"] <:+: mapCGOptionsToClangOptions false Config [] ↔
        Config.PGOWarnMismatch = false)
    ∧ ("-mllvm" ∈ mapCGOptionsToClangOptions false Config [] ↔
        Config.PGOWarnMismatch = false)
    ∧ ("-no-pgo-warn-mismatch" ∈ mapCGOptionsToClangOptions false Config [] ↔
        Config.PGOWarnMismatch = false)
    ∧ ("-fcs-profile-generate" ∈ mapCGOptionsToClangOptions false Config [] ↔
        Config.RunCSIRInstr = true)
    ∧ "-Wno-unused-command-line-argument" ∈ mapCGOptionsToClangOptions false Config []
    ∧ (∀ a ∈ mapCGOptionsToClangOptions false Config [],
        a ∈ ["-O" ++ toString Config.OptLevel, "-faddrsig", "-ffunction-sections",
             "-fdata-sections", "-funique-basic-block-section-names", "-ffp-model=hard",
             "-ffp-model=soft", "-fpic", "-fropi", "-frwpi", "-mcmodel=kernel",
             "-mcmodel=large", "-mcmodel=medium", "-mcmodel=small",
             "-Wno-unused-command-line-argument", "-mllvm", "-no-pgo-warn-mismatch",
             "-fcs-profile-generate"])
    ∧ (mapCGOptionsToClangOptions false Config []).Nodup := by
  obtain ⟨h1, h2, h3, h4, h5, h6, h7, h8, h9, h10, h11, h12, h13, h14, h15, h16, h17⟩ :=
    dashO_lits Config.OptLevel
  have hmllvm : "-mllvm" ∈ mapCGOptionsToClangOptions false Config [] ↔
      Config.PGOWarnMismatch = false := by
    simp [mem_mapCG, h15]
  refine ⟨?_, ?_, ?_, ?_, ?_, ?_, ?_, ?_, ?_, ?_, ?_, ?_, ?_, ?_, ?_, hmllvm, ?_, ?_, ?_, ?_, ?_⟩
  · simp [mem_mapCG]
  · simp [mem_mapCG, h1]
  · simp [mem_mapCG, h2]
  · simp [mem_mapCG, h3]
  · simp [mem_mapCG, h4]
  · simp [mem_mapCG, h5]
  · simp [mem_mapCG, h6]
  · simp [mem_mapCG, h7]
  · simp [mem_mapCG, h8]
  · simp [mem_mapCG, h9]
  · simp [mem_mapCG, h10]
  · simp [mem_mapCG, h11]
  · simp [mem_mapCG, h12]
  · simp [mem_mapCG, h13]
  · constructor
    · intro h
      exact hmllvm.mp (h.subset (by simp))
    · intro h
      unfold mapCGOptionsToClangOptions
      rw [h]
      simp only [Bool.not_false, if_true]
      exact List.infix_append _ _ _
  · simp [mem_mapCG, h16]
  · simp [mem_mapCG, h17]
  · simp [mem_mapCG]
  · intro a ha
    exact (mapCG_sublist false Config).subset ha
  · exact (clangOptionsInSourceOrder_nodup _).sublist (mapCG_sublist false Config)


theorem getLast?_append_cons {α : Type} (l : List α) (a : α) (t : List α) :
    (l ++ a :: t).getLast? = (a :: t).getLast? := by
  induction l with
  | nil => rfl
  | cons b l ih =>
    cases l with
    | nil => simp
    | cons c l => simpa [List.getLast?_cons_cons] using ih

theorem mapCG_split (w : Bool) (Config : LtoConfig) :
    ∃ X, mapCGOptionsToClangOptions w Config [] =
      X ++ ["-Wno-unused-command-line-argument"]
        ++ (if !Config.PGOWarnMismatch then ["-mllvm", "-no-pgo-warn-mismatch"] else [])
        ++ (if Config.RunCSIRInstr then ["-fcs-profile-generate"] else []) :=
  ⟨_, rfl⟩

/-- C10, as the code has it: `-Wno-unused-command-line-argument` is appended
before `-mllvm -no-pgo-warn-mismatch` and `-fcs-profile-generate`, so with
both requested it is not the last argument. -/
theorem mapCGOptionsToClangOptions_last_counterexample :
    mapCGOptionsToClangOptions false instrumentedLtoConfig [] =
      ["-O2", "-Wno-unused-command-line-argument", "-mllvm", "-no-pgo-warn-mismatch",
       "-fcs-profile-generate"]
    ∧ (mapCGOptionsToClangOptions false instrumentedLtoConfig []).getLast? ≠
      some "-Wno-unused-command-line-argument" := by
  decide

/-- C10 amended: the flag mapper appends its arguments in the order of the
source, which puts `-Wno-unused-command-line-argument` after the code model
and before `-mllvm -no-pgo-warn-mismatch` and `-fcs-profile-generate`; that
argument is the last one exactly when PGO mismatch warnings are enabled and no
context sensitive instrumentation is requested. -/
theorem mapCGOptionsToClangOptions_order (isWin32 : Bool) (Config : LtoConfig) :
    (mapCGOptionsToClangOptions isWin32 Config []).Sublist
      (["-O" ++ toString Config.OptLevel, "-faddrsig", "-ffunction-sections",
        "-fdata-sections", "-funique-basic-block-section-names", "-ffp-model=hard",
        "-ffp-model=soft", "-fpic", "-fropi", "-frwpi", "-mcmodel=kernel",
        "-mcmodel=large", "-mcmodel=medium", "-mcmodel=small",
        "-Wno-unused-command-line-argument", "-mllvm", "-no-pgo-warn-mismatch",
        "-fcs-profile-generate"])
    ∧ ((mapCGOptionsToClangOptions isWin32 Config []).getLast? =
          some "-Wno-unused-command-line-argument" ↔
        (Config.PGOWarnMismatch = true ∧ Config.RunCSIRInstr = false)) := by
  refine ⟨mapCG_sublist isWin32 Config, ?_⟩
  obtain ⟨X, hX⟩ := mapCG_split isWin32 Config
  rw [hX]
  obtain ⟨N, O, rm, cm, pgo, cs⟩ := Config
  cases pgo <;> cases cs <;> simp [getLast?_append_cons]

/-! ### The registry -/

theorem find_eq_none_iff (M : BitcodeNodeMapTy) (k : String) :
    M.find k = none ↔ k ∉ M.map Prod.fst := by
  induction M with
  | nil => simp [BitcodeNodeMapTy.find]
  | cons e M ih =>
    obtain ⟨k1, v1⟩ := e
    by_cases h : k1 = k
    · simp [BitcodeNodeMapTy.find, h]
    · have h1 : ¬ k = k1 := fun e => h e.symm
      simp [BitcodeNodeMapTy.find, h, h1, ih]

theorem find_some_mem (M : BitcodeNodeMapTy) (k : String) (v : BitcodeNodeTy)
    (h : M.find k = some v) : (k, v) ∈ M := by
  induction M with
  | nil => simp [BitcodeNodeMapTy.find] at h
  | cons e M ih =>
    obtain ⟨k1, v1⟩ := e
    by_cases hk : k1 = k
    · simp [BitcodeNodeMapTy.find, hk] at h
      simp [hk, h]
    · simp [BitcodeNodeMapTy.find, hk] at h
      exact List.mem_cons_of_mem _ (ih h)

theorem find_of_mem (M : BitcodeNodeMapTy) (k : String) (v : BitcodeNodeTy)
    (hnd : (M.map Prod.fst).Nodup) (h : (k, v) ∈ M) : M.find k = some v := by
  induction M with
  | nil => simp at h
  | cons e M ih =>
    obtain ⟨k1, v1⟩ := e
    simp only [List.map_cons, List.nodup_cons] at hnd
    rcases List.mem_cons.mp h with h1 | h1
    · cases h1
      simp [BitcodeNodeMapTy.find]
    · have hk : k1 ≠ k := by
        intro e
        apply hnd.1
        rw [e]
        exact List.mem_map_of_mem Prod.fst h1
      simp [BitcodeNodeMapTy.find, hk, ih hnd.2 h1]

theorem keys_assign (M : BitcodeNodeMapTy) (k : String) (v : BitcodeNodeTy) :
    (M.assign k v).map Prod.fst = M.map Prod.fst := by
  induction M with
  | nil => rfl
  | cons e M ih =>
    obtain ⟨k1, v1⟩ := e
    by_cases hk : k1 = k
    · simp [BitcodeNodeMapTy.assign, hk]
    · simp [BitcodeNodeMapTy.assign, hk, ih]

theorem mem_assign (M : BitcodeNodeMapTy) (k : String) (v : BitcodeNodeTy)
    (e : String × BitcodeNodeTy) (h : e ∈ M.assign k v) : e ∈ M ∨ e = (k, v) := by
  induction M with
  | nil => simp [BitcodeNodeMapTy.assign] at h
  | cons e1 M ih =>
    obtain ⟨k1, v1⟩ := e1
    by_cases hk : k1 = k
    · simp only [BitcodeNodeMapTy.assign, hk, if_true, List.mem_cons] at h
      rcases h with h | h
      · exact Or.inr h
      · exact Or.inl (List.mem_cons_of_mem _ h)
    · simp only [BitcodeNodeMapTy.assign, hk, if_false, List.mem_cons] at h
      rcases h with h | h
      · exact Or.inl (by simp [h])
      · rcases ih h with h2 | h2
        · exact Or.inl (List.mem_cons_of_mem _ h2)
        · exact Or.inr h2

theorem find_assign_same (M : BitcodeNodeMapTy) (k : String) (v : BitcodeNodeTy)
    (h : k ∈ M.map Prod.fst) : (M.assign k v).find k = some v := by
  induction M with
  | nil => simp at h
  | cons e M ih =>
    obtain ⟨k1, v1⟩ := e
    by_cases hk : k1 = k
    · simp [BitcodeNodeMapTy.assign, BitcodeNodeMapTy.find, hk]
    · have h1 : k ∈ M.map Prod.fst := by
        simp only [List.map_cons, List.mem_cons] at h
        rcases h with h | h
        · exact absurd h.symm hk
        · exact h
      simp [BitcodeNodeMapTy.assign, BitcodeNodeMapTy.find, hk, ih h1]

theorem find_assign_ne (M : BitcodeNodeMapTy) (k k1 : String) (v : BitcodeNodeTy)
    (h : k1 ≠ k) : (M.assign k v).find k1 = M.find k1 := by
  induction M with
  | nil => rfl
  | cons e M ih =>
    obtain ⟨k2, v2⟩ := e
    by_cases hk : k2 = k
    · have hk2 : ¬ k2 = k1 := by
        rw [hk]
        exact fun e => h e.symm
      simp [BitcodeNodeMapTy.assign, BitcodeNodeMapTy.find, hk, hk2, h.symm]
    · by_cases hk1 : k2 = k1
      · subst hk1
        simp [BitcodeNodeMapTy.assign, BitcodeNodeMapTy.find, hk]
      · simp [BitcodeNodeMapTy.assign, BitcodeNodeMapTy.find, hk, hk1, ih]

theorem wellFormed_assign (M : BitcodeNodeMapTy) (k : String) (v : BitcodeNodeTy)
    (hM : M.WellFormed) (hv : v.ModuleId = k) : (M.assign k v).WellFormed := by
  refine ⟨by rw [keys_assign]; exact hM.1, ?_⟩
  intro e he
  rcases mem_assign M k v e he with h | h
  · exact hM.2 e h
  · rw [h]
    exact hv

theorem wellFormed_insert_or_assign (M : BitcodeNodeMapTy) (k : String) (v : BitcodeNodeTy)
    (hM : M.WellFormed) (hv : v.ModuleId = k) : (M.insert_or_assign k v).WellFormed := by
  unfold BitcodeNodeMapTy.insert_or_assign
  cases hf : M.find k with
  | none =>
    have hk := (find_eq_none_iff M k).mp hf
    refine ⟨?_, ?_⟩
    · simp only [List.map_append, List.map_cons, List.map_nil]
      rw [List.nodup_append]
      refine ⟨hM.1, by simp, ?_⟩
      intro a ha hb
      simp only [List.mem_singleton] at hb
      exact hk (hb ▸ ha)
    · intro e he
      rcases List.mem_append.mp he with h | h
      · exact hM.2 e h
      · simp only [List.mem_singleton] at h
        rw [h]
        exact hv
  | some w => exact wellFormed_assign M k v hM hv

theorem fresh_insert_or_assign (M : BitcodeNodeMapTy) (k : String) (v : BitcodeNodeTy)
    (hM : M.Fresh) (hv : v.Excluded = true ∧ v.TaskNumber = none) :
    (M.insert_or_assign k v).Fresh := by
  unfold BitcodeNodeMapTy.insert_or_assign
  intro e he
  cases hf : M.find k with
  | none =>
    rw [hf] at he
    rcases List.mem_append.mp he with h | h
    · exact hM e h
    · simp only [List.mem_singleton] at h
      rw [h]
      exact hv
  | some w =>
    rw [hf] at he
    rcases mem_assign M k v e he with h | h
    · exact hM e h
    · rw [h]
      exact hv

theorem initLoop_inv (Host : HostTy) (Inputs : List InputFile) (M : BitcodeNodeMapTy)
    (hwf : M.WellFormed) (hfr : M.Fresh) :
    (initBitcodeModulesMapLoop Host Inputs M).2.WellFormed
    ∧ (initBitcodeModulesMapLoop Host Inputs M).2.Fresh := by
  induction Inputs generalizing M with
  | nil => exact ⟨hwf, hfr⟩
  | cons Input rest ih =>
    unfold initBitcodeModulesMapLoop
    simp only []
    cases hm : Host.make_absolute Input.getName with
    | error msg => exact ⟨hwf, hfr⟩
    | ok ModulePath =>
      exact ih _ (wellFormed_insert_or_assign M _ _ hwf rfl)
        (fresh_insert_or_assign M _ _ hfr ⟨rfl, rfl⟩)

theorem initBitcodeModulesMap_inv (Host : HostTy) (Cfg : ConfigTy) :
    (initBitcodeModulesMap Host Cfg).2.WellFormed ∧ (initBitcodeModulesMap Host Cfg).2.Fresh :=
  initLoop_inv Host Cfg.InputFiles [] ⟨by simp, by simp⟩ (by intro e he; simp at he)

/-! ### The thin link -/

theorem thinLinkLoop_succ (Slots : Nat → TaskSlot) (n I : Nat) (M : BitcodeNodeMapTy)
    (W : WorldTy) :
    thinLinkLoop Slots (n + 1) I (M, W) =
      if (Slots I).ModuleName = "" then thinLinkLoop Slots n (I + 1) (M, W)
      else
        match M.find (Slots I).ModuleName with
        | none => none
        | some N =>
          thinLinkLoop Slots n (I + 1)
            (M.assign (Slots I).ModuleName (visitedNode N I (Slots I).ImportsFilesList),
             if (Slots I).SummaryIndexFile ≠ "" then
               (saveBuffer W (Slots I).SummaryIndexFile N.SummaryIndexPath).1
             else W) := by
  rw [thinLinkLoop]
  rfl

theorem thinLinkLoop_congr (Slots Slots1 : Nat → TaskSlot) (n I : Nat)
    (S : BitcodeNodeMapTy × WorldTy) (h : ∀ J, I ≤ J → Slots J = Slots1 J) :
    thinLinkLoop Slots n I S = thinLinkLoop Slots1 n I S := by
  induction n generalizing I S with
  | zero => rfl
  | succ n ih =>
    obtain ⟨M, W⟩ := S
    rw [thinLinkLoop_succ, thinLinkLoop_succ, ← h I (le_refl I)]
    have h1 : ∀ J, I + 1 ≤ J → Slots J = Slots1 J := fun J hJ => h J (by omega)
    by_cases h0 : (Slots I).ModuleName = ""
    · rw [if_pos h0, if_pos h0]
      exact ih (I + 1) _ h1
    · rw [if_neg h0, if_neg h0]
      cases M.find (Slots I).ModuleName with
      | none => rfl
      | some N => exact ih (I + 1) _ h1

theorem thinLinkLoop_preserves (Slots : Nat → TaskSlot) (n I : Nat) (M M1 : BitcodeNodeMapTy)
    (W W1 : WorldTy) (h : thinLinkLoop Slots n I (M, W) = some (M1, W1))
    (hwf : M.WellFormed) (hex : M.ExcludedUnnumbered) :
    M1.WellFormed ∧ M1.ExcludedUnnumbered ∧ M1.map Prod.fst = M.map Prod.fst := by
  induction n generalizing I M W with
  | zero =>
    simp only [thinLinkLoop, Option.some.injEq, Prod.mk.injEq] at h
    rw [← h.1]
    exact ⟨hwf, hex, rfl⟩
  | succ n ih =>
    rw [thinLinkLoop_succ] at h
    by_cases h0 : (Slots I).ModuleName = ""
    · rw [if_pos h0] at h
      exact ih (I + 1) M W h hwf hex
    · rw [if_neg h0] at h
      cases hf : M.find (Slots I).ModuleName with
      | none => simp [hf] at h
      | some N =>
        rw [hf] at h
        have hN := hwf.2 _ (find_some_mem M _ N hf)
        have hwf1 := wellFormed_assign M (Slots I).ModuleName
          (visitedNode N I (Slots I).ImportsFilesList) hwf hN
        have hex1 : (M.assign (Slots I).ModuleName
            (visitedNode N I (Slots I).ImportsFilesList)).ExcludedUnnumbered := by
          intro e he hE
          rcases mem_assign M _ _ e he with h2 | h2
          · exact hex e h2 hE
          · rw [h2] at hE
            simp [visitedNode, BitcodeNodeTy.recordImports] at hE
        obtain ⟨a, b, c⟩ := ih (I + 1) _ _ h hwf1 hex1
        exact ⟨a, b, c.trans (keys_assign M _ _)⟩

theorem fresh_excludedUnnumbered (M : BitcodeNodeMapTy) (h : M.Fresh) :
    M.ExcludedUnnumbered := fun e he _ => (h e he).2

theorem thinLink_preserves (LTOObj : LTOTy) (M M1 : BitcodeNodeMapTy) (W W1 : WorldTy)
    (E : Error) (h : thinLink LTOObj M W = some (E, M1, W1))
    (hwf : M.WellFormed) (hex : M.ExcludedUnnumbered) :
    M1.WellFormed ∧ M1.ExcludedUnnumbered ∧ M1.map Prod.fst = M.map Prod.fst := by
  unfold thinLink at h
  cases hr : LTOObj.run with
  | error msg =>
    simp only [hr, Option.some.injEq, Prod.mk.injEq] at h
    rw [← h.2.1]
    exact ⟨hwf, hex, rfl⟩
  | ok Slots =>
    simp only [hr] at h
    split_ifs at h with h0
    cases hl : thinLinkLoop Slots (LTOObj.MaxTasks - 1) 1 (M, W) with
    | none => simp [hl] at h
    | some S =>
      obtain ⟨M2, W2⟩ := S
      simp only [hl, Option.some.injEq, Prod.mk.injEq] at h
      rw [← h.2.1]
      exact thinLinkLoop_preserves Slots _ 1 M M2 W W2 hl hwf hex

/-! ### Sorting and dispatch -/

theorem GtSizeOp_strictWeakOrdering : StrictWeakOrdering GtSizeOp := by
  refine ⟨?_, ?_, ?_⟩
  · intro a
    simp [GtSizeOp]
  · intro a b c h1 h2
    simp only [GtSizeOp, decide_eq_true_eq] at *
    omega
  · intro a b c h1 h2 h3 h4
    simp only [GtSizeOp, decide_eq_false_iff_not] at *
    omega

theorem strictWeakOrdering_total {α : Type} {comp : α → α → Bool}
    (h : StrictWeakOrdering comp) (a b : α) : comp b a = false ∨ comp a b = false := by
  cases hba : comp b a with
  | false => exact Or.inl rfl
  | true =>
    right
    cases hab : comp a b with
    | false => rfl
    | true =>
      have := h.trans a b a hab hba
      rw [h.irrefl a] at this
      exact absurd this (by simp)

theorem strictWeakOrdering_trans {α : Type} {comp : α → α → Bool}
    (h : StrictWeakOrdering comp) (a b c : α) (h1 : comp b a = false) (h2 : comp c b = false) :
    comp c a = false := by
  cases hca : comp c a with
  | false => rfl
  | true =>
    exfalso
    cases hab : comp a b with
    | true =>
      have := h.trans c a b hca hab
      rw [h2] at this
      exact absurd this (by simp)
    | false =>
      cases hbc : comp b c with
      | true =>
        have := h.trans b c a hbc hca
        rw [h1] at this
        exact absurd this (by simp)
      | false =>
        have := (h.equivTrans a b c hab h1 hbc h2).2
        rw [hca] at this
        exact absurd this (by simp)

theorem insertionSort_contract {α : Type} (comp : α → α → Bool)
    (h : StrictWeakOrdering comp) (l : List α) :
    (List.insertionSort (fun a b => comp b a = false) l).Perm l
    ∧ (List.insertionSort (fun a b => comp b a = false) l).Pairwise
        (fun a b => comp b a = false) := by
  refine ⟨List.perm_insertionSort _ l, ?_⟩
  haveI : IsTotal α (fun a b => comp b a = false) := ⟨strictWeakOrdering_total h⟩
  haveI : IsTrans α (fun a b => comp b a = false) := ⟨strictWeakOrdering_trans h⟩
  exact List.sorted_insertionSort (fun a b => comp b a = false) l

theorem insertionStdSort_contract {α : Type} :
    StdSortContract (insertionStdSort : (α → α → Bool) → List α → List α) :=
  fun comp h l => insertionSort_contract comp h l

theorem reversingStdSort_contract {α : Type} :
    StdSortContract (reversingStdSort : (α → α → Bool) → List α → List α) := by
  intro comp h l
  obtain ⟨h1, h2⟩ := insertionSort_contract comp h l.reverse
  exact ⟨h1.trans (List.reverse_perm l), h2⟩

theorem collectBitcodesList_foldl (M : BitcodeNodeMapTy) (acc : List dtltoBitcodeNodeTy) :
    M.foldl
      (fun BitcodesList BitcodeNode =>
        if BitcodeNode.2.Excluded then BitcodesList
        else BitcodesList ++ [BitcodeNode.2.todtltoBitcodeNodeTy]) acc =
    acc ++ (M.filter (fun e => !e.2.Excluded)).map (fun e => e.2.todtltoBitcodeNodeTy) := by
  induction M generalizing acc with
  | nil => simp
  | cons e M ih =>
    rw [List.foldl_cons, ih]
    cases hE : e.2.Excluded <;> simp [List.filter_cons, hE]

theorem collectBitcodesList_eq (M : BitcodeNodeMapTy) :
    collectBitcodesList M =
      (M.filter (fun e => !e.2.Excluded)).map (fun e => e.2.todtltoBitcodeNodeTy) := by
  unfold collectBitcodesList
  rw [collectBitcodesList_foldl]
  rfl

theorem sortedBitcodesList_spec
    (std_sort : (dtltoBitcodeNodeTy → dtltoBitcodeNodeTy → Bool) →
      List dtltoBitcodeNodeTy → List dtltoBitcodeNodeTy)
    (hsort : StdSortContract std_sort) (M : BitcodeNodeMapTy) :
    (sortedBitcodesList std_sort M).Perm (collectBitcodesList M)
    ∧ (sortedBitcodesList std_sort M).Pairwise (fun a b => b.ModuleSize ≤ a.ModuleSize) := by
  obtain ⟨h1, h2⟩ := hsort GtSizeOp GtSizeOp_strictWeakOrdering (collectBitcodesList M)
  refine ⟨h1, h2.imp ?_⟩
  intro a b hab
  simp only [GtSizeOp, decide_eq_false_iff_not] at hab
  omega

theorem performCodegenWithPlugin_call (Host : HostTy) (Cfg : ConfigTy) (W : WorldTy)
    (L : List dtltoBitcodeNodeTy) (Args : List String) (Call : PluginCallTy)
    (h : (performCodegenWithPlugin Host Cfg W L Args).2.2 = some Call) :
    Call.BitcodesList = L ∧ Call.Argv = Args
    ∧ (Call.Code ≠ 0 → (performCodegenWithPlugin Host Cfg W L Args).1 =
        [ErrorInfo.pluginCodegenFailed Cfg.DbsKind Call.Code])
    ∧ (Call.Code = 0 → (performCodegenWithPlugin Host Cfg W L Args).1 = []) := by
  unfold performCodegenWithPlugin at h ⊢
  simp only [] at h ⊢
  by_cases h0 : Host.getMainExecutable Cfg.Argv0 = ""
  · rw [if_pos h0] at h
    simp at h
  · rw [if_neg h0] at h ⊢
    cases hlib : Host.getPermanentLibrary
        (PluginPathOf Host Cfg (Host.getMainExecutable Cfg.Argv0)) with
    | error msg => simp [hlib] at h
    | ok sym =>
      cases sym with
      | none => simp [hlib] at h
      | some PerformCodegen =>
        simp only [hlib] at h ⊢
        by_cases hc : (PerformCodegen Cfg.DbsKind L Args W).1 = 0
        · rw [if_neg (by simpa using hc)] at h ⊢
          simp only [Option.some.injEq] at h
          subst h
          simp [hc]
        · rw [if_pos hc] at h ⊢
          simp only [Option.some.injEq] at h
          subst h
          simp [hc]

/-- What a session that reached the plugin did: the analysis succeeded with
the registry `M1`, the plugin got the sorted list of `M1` and the mapped
options, a non-zero code ended the session at once, and the code 0 was
followed by the harvest loop over `M1`. -/
theorem codeGenImpl_reached_plugin (Host : HostTy)
    (std_sort : (dtltoBitcodeNodeTy → dtltoBitcodeNodeTy → Bool) →
      List dtltoBitcodeNodeTy → List dtltoBitcodeNodeTy)
    (Cfg : ConfigTy) (LTOObj : LTOTy) (W : WorldTy) (Out : OutcomeTy) (Call : PluginCallTy)
    (hrun : codeGenImpl Host std_sort Cfg LTOObj W = some Out)
    (hcall : Out.PluginCall = some Call) :
    ∃ M1 W1,
      (initBitcodeModulesMap Host Cfg).1 = []
      ∧ thinLink LTOObj (initBitcodeModulesMap Host Cfg).2 W = some ([], M1, W1)
      ∧ (performCodegenWithPlugin Host Cfg W1 (sortedBitcodesList std_sort M1)
          (mapCGOptionsToClangOptions Host.isWin32 LTOObj.Config [])).2.2 = some Call
      ∧ Call.BitcodesList = sortedBitcodesList std_sort M1
      ∧ Call.Argv = mapCGOptionsToClangOptions Host.isWin32 LTOObj.Config []
      ∧ (Call.Code ≠ 0 →
          Out.Result = [ErrorInfo.pluginCodegenFailed Cfg.DbsKind Call.Code,
                        ErrorInfo.codegenFailedOnDbs Cfg.DbsKind]
          ∧ Out.BcNodeMap = M1 ∧ Out.AddedBuffers = [])
      ∧ (Call.Code = 0 →
          Out.Result = (harvest (performCodegenWithPlugin Host Cfg W1
              (sortedBitcodesList std_sort M1)
              (mapCGOptionsToClangOptions Host.isWin32 LTOObj.Config [])).2.1.FS M1 []).E
          ∧ Out.BcNodeMap = (harvest (performCodegenWithPlugin Host Cfg W1
              (sortedBitcodesList std_sort M1)
              (mapCGOptionsToClangOptions Host.isWin32 LTOObj.Config [])).2.1.FS M1 []).BcNodeMap
          ∧ Out.AddedBuffers = (harvest (performCodegenWithPlugin Host Cfg W1
              (sortedBitcodesList std_sort M1)
              (mapCGOptionsToClangOptions Host.isWin32 LTOObj.Config [])).2.1.FS M1
                []).AddedBuffers) := by
  unfold codeGenImpl at hrun
  simp only [] at hrun
  split_ifs at hrun with hinit
  · simp only [Option.some.injEq] at hrun
    subst hrun
    simp at hcall
  · simp only [ne_eq, not_not] at hinit
    cases hg : codeGenGuarded Host std_sort Cfg LTOObj (initBitcodeModulesMap Host Cfg).2 W with
    | none => simp [hg] at hrun
    | some G =>
      simp only [hg, Option.some.injEq] at hrun
      subst hrun
      simp only [] at hcall
      unfold codeGenGuarded at hg
      cases hl : thinLink LTOObj (initBitcodeModulesMap Host Cfg).2 W with
      | none => simp [hl] at hg
      | some R =>
        obtain ⟨E0, M1, W1⟩ := R
        simp only [hl] at hg
        split_ifs at hg with hE0 hE
        · simp only [Option.some.injEq] at hg
          subst hg
          simp at hcall
        · simp only [ne_eq, not_not] at hE0
          subst hE0
          simp only [Option.some.injEq] at hg
          subst hg
          simp only [] at hcall
          obtain ⟨c1, c2, c3, c4⟩ := performCodegenWithPlugin_call Host Cfg W1 _ _ Call hcall
          refine ⟨M1, W1, hinit, rfl, hcall, c1, c2, ?_, ?_⟩
          · intro hc
            simp [joinErrors, c3 hc]
          · intro hc
            exact absurd (c4 hc) hE
        · simp only [ne_eq, not_not] at hE0 hE
          subst hE0
          simp only [Option.some.injEq] at hg
          subst hg
          simp only [] at hcall
          obtain ⟨c1, c2, c3, c4⟩ := performCodegenWithPlugin_call Host Cfg W1 _ _ Call hcall
          refine ⟨M1, W1, hinit, rfl, hcall, c1, c2, ?_, ?_⟩
          · intro hc
            rw [c3 hc] at hE
            simp at hE
          · intro _
            rw [hE]
            exact ⟨rfl, rfl, rfl⟩

theorem eq_of_mem_of_key_eq (M : BitcodeNodeMapTy) (hnd : (M.map Prod.fst).Nodup)
    (e1 e2 : String × BitcodeNodeTy) (h1 : e1 ∈ M) (h2 : e2 ∈ M) (hk : e1.1 = e2.1) :
    e1 = e2 := by
  obtain ⟨k1, v1⟩ := e1
  obtain ⟨k2, v2⟩ := e2
  simp only at hk
  subst hk
  have a := find_of_mem M k1 v1 hnd h1
  have b := find_of_mem M k1 v2 hnd h2
  rw [a] at b
  simp only [Option.some.injEq] at b
  rw [b]

theorem wellFormed_ids_nodup (M : BitcodeNodeMapTy) (h : M.WellFormed) :
    (M.map (fun e => e.2.ModuleId)).Nodup := by
  have : M.map (fun e => e.2.ModuleId) = M.map Prod.fst :=
    List.map_congr_left (fun e he => h.2 e he)
  rw [this]
  exact h.1

theorem collect_ids_nodup (M : BitcodeNodeMapTy) (h : M.WellFormed) :
    ((collectBitcodesList M).map (fun w => w.ModuleId)).Nodup := by
  rw [collectBitcodesList_eq, List.map_map]
  have hsub : ((M.filter (fun e => !e.2.Excluded)).map (fun e => e.2.ModuleId)).Sublist
      (M.map (fun e => e.2.ModuleId)) := (List.filter_sublist M).map _
  exact (wellFormed_ids_nodup M h).sublist hsub

theorem mem_collect (M : BitcodeNodeMapTy) (w : dtltoBitcodeNodeTy) :
    w ∈ collectBitcodesList M ↔
      ∃ e ∈ M, e.2.Excluded = false ∧ e.2.todtltoBitcodeNodeTy = w := by
  rw [collectBitcodesList_eq]
  simp [List.mem_map, List.mem_filter, and_assoc]

theorem sortedBitcodesList_sizes
    (std_sort : (dtltoBitcodeNodeTy → dtltoBitcodeNodeTy → Bool) →
      List dtltoBitcodeNodeTy → List dtltoBitcodeNodeTy)
    (hsort : StdSortContract std_sort) (M : BitcodeNodeMapTy) :
    (sortedBitcodesList std_sort M).map (fun w => w.ModuleSize) =
      List.insertionSort (fun a b => b ≤ a)
        ((M.filter (fun e => !e.2.Excluded)).map (fun e => e.2.ModuleSize)) := by
  obtain ⟨hperm, hpair⟩ := sortedBitcodesList_spec std_sort hsort M
  rw [collectBitcodesList_eq] at hperm
  have h1 : ((sortedBitcodesList std_sort M).map (fun w => w.ModuleSize)).Perm
      ((M.filter (fun e => !e.2.Excluded)).map (fun e => e.2.ModuleSize)) := by
    have := hperm.map (fun w => w.ModuleSize)
    rwa [List.map_map] at this
  have h2 : ((sortedBitcodesList std_sort M).map (fun w => w.ModuleSize)).Sorted
      (fun a b => b ≤ a) := by
    rw [List.Sorted, List.pairwise_map]
    exact hpair
  haveI : IsTotal Nat (fun a b => b ≤ a) := ⟨fun a b => Nat.le_total b a⟩
  haveI : IsTrans Nat (fun a b => b ≤ a) := ⟨fun a b c h1 h2 => Nat.le_trans h2 h1⟩
  haveI : IsAntisymm Nat (fun a b => b ≤ a) := ⟨fun a b h1 h2 => Nat.le_antisymm h2 h1⟩
  exact List.eq_of_perm_of_sorted
    (h1.trans (List.perm_insertionSort _ _).symm) h2 (List.sorted_insertionSort _ _)

/-- C1: the list of work items that `codeGenImpl` passes to the backend is
ordered by `ModuleSize`, non-increasing: for positions `i < j` the size at `i`
is at least the size at `j`; the sizes in the list are the sizes of the units
that the analysis selected, in descending order. -/
theorem codeGenImpl_dispatch_sorted (Host : HostTy)
    (std_sort : (dtltoBitcodeNodeTy → dtltoBitcodeNodeTy → Bool) →
      List dtltoBitcodeNodeTy → List dtltoBitcodeNodeTy)
    (Cfg : ConfigTy) (LTOObj : LTOTy) (W W1 : WorldTy) (E : Error) (M1 : BitcodeNodeMapTy)
    (Out : OutcomeTy) (Call : PluginCallTy)
    (hsort : StdSortContract std_sort)
    (hlink : thinLink LTOObj (initBitcodeModulesMap Host Cfg).2 W = some (E, M1, W1))
    (hrun : codeGenImpl Host std_sort Cfg LTOObj W = some Out)
    (hcall : Out.PluginCall = some Call) :
    (∀ (i j : Nat) (hij : i < j) (hj : j < Call.BitcodesList.length),
      (Call.BitcodesList.get ⟨j, hj⟩).ModuleSize ≤
        (Call.BitcodesList.get ⟨i, lt_trans hij hj⟩).ModuleSize)
    ∧ Call.BitcodesList.map (fun w => w.ModuleSize) =
        List.insertionSort (fun a b => b ≤ a)
          ((M1.filter (fun e => !e.2.Excluded)).map (fun e => e.2.ModuleSize)) := by
  obtain ⟨M2, W2, _, hl2, _, hl, _⟩ :=
    codeGenImpl_reached_plugin Host std_sort Cfg LTOObj W Out Call hrun hcall
  rw [hlink] at hl2
  simp only [Option.some.injEq, Prod.mk.injEq] at hl2
  obtain ⟨_, hM, _⟩ := hl2
  subst hM
  have hp := (sortedBitcodesList_spec std_sort hsort M1).2
  rw [← hl] at hp
  refine ⟨?_, ?_⟩
  · intro i j hij hj
    exact List.pairwise_iff_get.mp hp ⟨i, lt_trans hij hj⟩ ⟨j, hj⟩ hij
  · rw [hl]
    exact sortedBitcodesList_sizes std_sort hsort M1

/-- C1 on scenario A: the units of sizes 10, 100 and 50, all selected, are
dispatched in the order 100, 50, 10. -/
theorem codeGenImpl_dispatch_sorted_witness :
    ∃ Out Call M1 W1,
      thinLink scenarioALTO (initBitcodeModulesMap (hostWith mockBackend) scenarioAConfig).2
        emptyWorld = some ([], M1, W1)
      ∧ M1.map (fun e => (e.1, e.2.ModuleSize, e.2.Excluded)) =
          [("a.bc", 10, false), ("b.bc", 100, false), ("c.bc", 50, false)]
      ∧ scenarioAOutcome = some Out ∧ Out.PluginCall = some Call
      ∧ Call.BitcodesList.map (fun n => (n.ModuleId, n.ModuleSize)) =
          [("b.bc", 100), ("c.bc", 50), ("a.bc", 10)]
      ∧ (∀ (i j : Nat) (hij : i < j) (hj : j < Call.BitcodesList.length),
          (Call.BitcodesList.get ⟨j, hj⟩).ModuleSize ≤
            (Call.BitcodesList.get ⟨i, lt_trans hij hj⟩).ModuleSize)
      ∧ Call.BitcodesList.map (fun w => w.ModuleSize) =
          List.insertionSort (fun a b => b ≤ a)
            ((M1.filter (fun e => !e.2.Excluded)).map (fun e => e.2.ModuleSize)) := by
  have h0 : scenarioAOutcome.bind (fun o => o.PluginCall.map (fun c =>
      c.BitcodesList.map (fun n => (n.ModuleId, n.ModuleSize)))) =
      some [("b.bc", 100), ("c.bc", 50), ("a.bc", 10)] := by decide
  have h1 : (thinLink scenarioALTO
      (initBitcodeModulesMap (hostWith mockBackend) scenarioAConfig).2 emptyWorld).map
      (fun r => (r.1, r.2.1.map (fun e => (e.1, e.2.ModuleSize, e.2.Excluded)))) =
      some ([], [("a.bc", 10, false), ("b.bc", 100, false), ("c.bc", 50, false)]) := by
    decide
  cases hrun : scenarioAOutcome with
  | none =>
    rw [hrun] at h0
    simp at h0
  | some Out =>
    rw [hrun] at h0
    simp only [Option.some_bind, Option.map_eq_some'] at h0
    obtain ⟨Call, hcall, hl⟩ := h0
    cases hlink : thinLink scenarioALTO
        (initBitcodeModulesMap (hostWith mockBackend) scenarioAConfig).2 emptyWorld with
    | none =>
      rw [hlink] at h1
      simp at h1
    | some R =>
      obtain ⟨E, M1, W1⟩ := R
      rw [hlink] at h1
      simp only [Option.map_some', Option.some.injEq, Prod.mk.injEq] at h1
      obtain ⟨hE, hM⟩ := h1
      subst hE
      exact ⟨Out, Call, M1, W1, rfl, hM, rfl, hcall, hl,
        codeGenImpl_dispatch_sorted (hostWith mockBackend) insertionStdSort scenarioAConfig
          scenarioALTO emptyWorld W1 [] M1 Out Call insertionStdSort_contract hlink hrun
          hcall⟩

/-- C2, as the code has it: with a sort that meets the contract of `std::sort`
and reverses equivalent elements, the two units of size 7 that were registered
as `first.bc`, `second.bc` are dispatched as `second.bc`, `first.bc`. -/
theorem dispatch_not_stable_counterexample :
    StdSortContract
      (reversingStdSort : (dtltoBitcodeNodeTy → dtltoBitcodeNodeTy → Bool) →
        List dtltoBitcodeNodeTy → List dtltoBitcodeNodeTy)
    ∧ (initBitcodeModulesMap (hostWith mockBackend) tieConfig).2.map
        (fun e => (e.1, e.2.ModuleSize)) = [("first.bc", 7), ("second.bc", 7)]
    ∧ tieOutcome.bind (fun o => o.PluginCall.map (fun c =>
        c.BitcodesList.map (fun n => (n.ModuleId, n.ModuleSize)))) =
        some [("second.bc", 7), ("first.bc", 7)] :=
  ⟨reversingStdSort_contract, by decide, by decide⟩

/-- C2 amended: in the list passed to the backend, of any two units that are
not excluded and differ in `ModuleSize` the larger one comes first, whichever
was registered first; for units of equal size the order is the one `std::sort`
leaves, which its contract does not fix. -/
theorem codeGenImpl_dispatch_larger_first (Host : HostTy)
    (std_sort : (dtltoBitcodeNodeTy → dtltoBitcodeNodeTy → Bool) →
      List dtltoBitcodeNodeTy → List dtltoBitcodeNodeTy)
    (Cfg : ConfigTy) (LTOObj : LTOTy) (W W1 : WorldTy) (E : Error) (M1 : BitcodeNodeMapTy)
    (Out : OutcomeTy) (Call : PluginCallTy)
    (hsort : StdSortContract std_sort)
    (hlink : thinLink LTOObj (initBitcodeModulesMap Host Cfg).2 W = some (E, M1, W1))
    (hrun : codeGenImpl Host std_sort Cfg LTOObj W = some Out)
    (hcall : Out.PluginCall = some Call) :
    ∀ a ∈ M1, ∀ b ∈ M1, a.2.Excluded = false → b.2.Excluded = false →
      b.2.ModuleSize < a.2.ModuleSize →
      ∃ (i j : Nat), i < j
        ∧ Call.BitcodesList[i]? = some a.2.todtltoBitcodeNodeTy
        ∧ Call.BitcodesList[j]? = some b.2.todtltoBitcodeNodeTy := by
  obtain ⟨M2, W2, _, hl2, _, hl, _⟩ :=
    codeGenImpl_reached_plugin Host std_sort Cfg LTOObj W Out Call hrun hcall
  rw [hlink] at hl2
  simp only [Option.some.injEq, Prod.mk.injEq] at hl2
  obtain ⟨_, hM, _⟩ := hl2
  subst hM
  obtain ⟨hperm, hpair⟩ := sortedBitcodesList_spec std_sort hsort M1
  rw [← hl] at hperm hpair
  intro a ha b hb hEa hEb hlt
  have hma : a.2.todtltoBitcodeNodeTy ∈ Call.BitcodesList :=
    hperm.mem_iff.mpr ((mem_collect M1 _).mpr ⟨a, ha, hEa, rfl⟩)
  have hmb : b.2.todtltoBitcodeNodeTy ∈ Call.BitcodesList :=
    hperm.mem_iff.mpr ((mem_collect M1 _).mpr ⟨b, hb, hEb, rfl⟩)
  obtain ⟨i, hi, hia⟩ := List.getElem_of_mem hma
  obtain ⟨j, hj, hjb⟩ := List.getElem_of_mem hmb
  refine ⟨i, j, ?_, ?_, ?_⟩
  · rcases Nat.lt_trichotomy i j with h | h | h
    · exact h
    · exfalso
      subst h
      rw [hia] at hjb
      rw [hjb] at hlt
      exact lt_irrefl _ hlt
    · exfalso
      have := List.pairwise_iff_get.mp hpair ⟨j, hj⟩ ⟨i, hi⟩ h
      simp only [List.get_eq_getElem] at this
      rw [hia, hjb] at this
      omega
  · rw [List.getElem?_eq_getElem hi, hia]
  · rw [List.getElem?_eq_getElem hj, hjb]

/-- C2 amended on scenario A: `b.bc` of size 100 was registered after `a.bc`
of size 10 and is dispatched before it. -/
theorem codeGenImpl_dispatch_larger_first_witness :
    ∃ Out Call M1 W1 a b,
      thinLink scenarioALTO (initBitcodeModulesMap (hostWith mockBackend) scenarioAConfig).2
        emptyWorld = some ([], M1, W1)
      ∧ scenarioAOutcome = some Out ∧ Out.PluginCall = some Call
      ∧ a ∈ M1 ∧ b ∈ M1 ∧ a.1 = "b.bc" ∧ b.1 = "a.bc"
      ∧ ∃ (i j : Nat), i < j
          ∧ Call.BitcodesList[i]? = some a.2.todtltoBitcodeNodeTy
          ∧ Call.BitcodesList[j]? = some b.2.todtltoBitcodeNodeTy := by
  have h0 : scenarioAOutcome.bind (fun o => o.PluginCall.map (fun _ => ())) = some () := by
    decide
  have h1 : (thinLink scenarioALTO
      (initBitcodeModulesMap (hostWith mockBackend) scenarioAConfig).2 emptyWorld).map
      (fun r => (r.1, r.2.1.map (fun e => (e.1, e.2.ModuleSize, e.2.Excluded)))) =
      some ([], [("a.bc", 10, false), ("b.bc", 100, false), ("c.bc", 50, false)]) := by
    decide
  cases hrun : scenarioAOutcome with
  | none =>
    rw [hrun] at h0
    simp at h0
  | some Out =>
    rw [hrun] at h0
    simp only [Option.some_bind, Option.map_eq_some'] at h0
    obtain ⟨Call, hcall, _⟩ := h0
    cases hlink : thinLink scenarioALTO
        (initBitcodeModulesMap (hostWith mockBackend) scenarioAConfig).2 emptyWorld with
    | none =>
      rw [hlink] at h1
      simp at h1
    | some R =>
      obtain ⟨E, M1, W1⟩ := R
      rw [hlink] at h1
      simp only [Option.map_some', Option.some.injEq, Prod.mk.injEq] at h1
      obtain ⟨hE, hM⟩ := h1
      subst hE
      match M1, hM, hlink with
      | [ea, eb, ec], hM, hlink =>
        simp only [List.map_cons, List.map_nil, List.cons.injEq, Prod.mk.injEq,
          and_true] at hM
        obtain ⟨⟨ha1, ha2, ha3⟩, ⟨hb1, hb2, hb3⟩, _⟩ := hM
        exact ⟨Out, Call, [ea, eb, ec], W1, eb, ea, rfl, rfl, hcall, by simp, by simp, hb1, ha1,
          codeGenImpl_dispatch_larger_first _ _ _ _ _ W1 [] [ea, eb, ec] Out Call
            insertionStdSort_contract hlink hrun hcall eb (by simp) ea (by simp) hb3 ha3
            (by omega)⟩

/-- C3: after the thin link every registered unit whose `Excluded` flag is
true has no task number and is not in the list passed to the backend; that
list consists of exactly the registered units with `Excluded = false`, each
once. -/
theorem codeGenImpl_dispatch_excluded (Host : HostTy)
    (std_sort : (dtltoBitcodeNodeTy → dtltoBitcodeNodeTy → Bool) →
      List dtltoBitcodeNodeTy → List dtltoBitcodeNodeTy)
    (Cfg : ConfigTy) (LTOObj : LTOTy) (W W1 : WorldTy) (E : Error) (M1 : BitcodeNodeMapTy)
    (hsort : StdSortContract std_sort)
    (hlink : thinLink LTOObj (initBitcodeModulesMap Host Cfg).2 W = some (E, M1, W1)) :
    (∀ e ∈ M1, e.2.Excluded = true →
        e.2.TaskNumber = none
        ∧ ∀ w ∈ sortedBitcodesList std_sort M1, w.ModuleId ≠ e.2.ModuleId)
    ∧ (sortedBitcodesList std_sort M1).Perm
        ((M1.filter (fun e => !e.2.Excluded)).map (fun e => e.2.todtltoBitcodeNodeTy))
    ∧ ((sortedBitcodesList std_sort M1).map (fun w => w.ModuleId)).Nodup
    ∧ (∀ Out Call, codeGenImpl Host std_sort Cfg LTOObj W = some Out →
        Out.PluginCall = some Call → Call.BitcodesList = sortedBitcodesList std_sort M1) := by
  obtain ⟨hwf0, hfr0⟩ := initBitcodeModulesMap_inv Host Cfg
  obtain ⟨hwf, hex, _⟩ := thinLink_preserves LTOObj _ M1 W W1 E hlink hwf0
    (fresh_excludedUnnumbered _ hfr0)
  obtain ⟨hperm, _⟩ := sortedBitcodesList_spec std_sort hsort M1
  refine ⟨?_, ?_, ?_, ?_⟩
  · intro e he hE
    refine ⟨hex e he hE, ?_⟩
    intro w hw hid
    obtain ⟨e1, he1, hE1, hw1⟩ := (mem_collect M1 w).mp (hperm.mem_iff.mp hw)
    have hk : e1.1 = e.1 := by
      rw [← hwf.2 e1 he1, ← hwf.2 e he, ← hid, ← hw1]
    have := eq_of_mem_of_key_eq M1 hwf.1 e1 e he1 he hk
    rw [this, hE] at hE1
    exact absurd hE1 (by simp)
  · rw [← collectBitcodesList_eq]
    exact hperm
  · exact ((hperm.map _).nodup_iff).mpr (collect_ids_nodup M1 hwf)
  · intro Out Call hrun hcall
    obtain ⟨M2, W2, _, hl2, _, hl, _⟩ :=
      codeGenImpl_reached_plugin Host std_sort Cfg LTOObj W Out Call hrun hcall
    rw [hlink] at hl2
    simp only [Option.some.injEq, Prod.mk.injEq] at hl2
    rw [hl, hl2.2.1]

/-- C3 on three registered units of which the analysis selects `c.bc` (task 1)
and `a.bc` (task 2): `b.bc` stays excluded without a task number and the list
for the backend holds the other two. -/
theorem codeGenImpl_dispatch_excluded_witness :
    ∃ M1 W1,
      thinLink partlySelectedLTO
        (initBitcodeModulesMap (hostWith mockBackend) scenarioAConfig).2 emptyWorld =
          some ([], M1, W1)
      ∧ M1.map (fun e => (e.1, e.2.Excluded, e.2.TaskNumber)) =
          [("a.bc", false, some 2), ("b.bc", true, none), ("c.bc", false, some 1)]
      ∧ (sortedBitcodesList insertionStdSort M1).map (fun w => w.ModuleId) = ["c.bc", "a.bc"]
      ∧ ((∀ e ∈ M1, e.2.Excluded = true →
            e.2.TaskNumber = none
            ∧ ∀ w ∈ sortedBitcodesList insertionStdSort M1, w.ModuleId ≠ e.2.ModuleId)
        ∧ (sortedBitcodesList insertionStdSort M1).Perm
            ((M1.filter (fun e => !e.2.Excluded)).map (fun e => e.2.todtltoBitcodeNodeTy))
        ∧ ((sortedBitcodesList insertionStdSort M1).map (fun w => w.ModuleId)).Nodup
        ∧ (∀ Out Call,
            codeGenImpl (hostWith mockBackend) insertionStdSort scenarioAConfig
              partlySelectedLTO emptyWorld = some Out →
            Out.PluginCall = some Call →
            Call.BitcodesList = sortedBitcodesList insertionStdSort M1)) := by
  have h1 : (thinLink partlySelectedLTO
      (initBitcodeModulesMap (hostWith mockBackend) scenarioAConfig).2 emptyWorld).map
      (fun r => (r.1, r.2.1.map (fun e => (e.1, e.2.Excluded, e.2.TaskNumber)))) =
      some ([], [("a.bc", false, some 2), ("b.bc", true, none), ("c.bc", false, some 1)]) := by
    decide
  have h2 : (thinLink partlySelectedLTO
      (initBitcodeModulesMap (hostWith mockBackend) scenarioAConfig).2 emptyWorld).map
      (fun r => (sortedBitcodesList insertionStdSort r.2.1).map (fun w => w.ModuleId)) =
      some ["c.bc", "a.bc"] := by
    decide
  cases hlink : thinLink partlySelectedLTO
      (initBitcodeModulesMap (hostWith mockBackend) scenarioAConfig).2 emptyWorld with
  | none =>
    rw [hlink] at h1
    simp at h1
  | some R =>
    obtain ⟨E, M1, W1⟩ := R
    rw [hlink] at h1 h2
    simp only [Option.map_some', Option.some.injEq, Prod.mk.injEq] at h1 h2
    obtain ⟨hE, hM⟩ := h1
    subst hE
    exact ⟨M1, W1, rfl, hM, h2,
      codeGenImpl_dispatch_excluded (hostWith mockBackend) insertionStdSort scenarioAConfig
        partlySelectedLTO emptyWorld W1 [] M1 insertionStdSort_contract hlink⟩

theorem thinLinkLoop_visits (Slots : Nat → TaskSlot) (n I : Nat) (M : BitcodeNodeMapTy)
    (W : WorldTy)
    (hkeys : ∀ J, I ≤ J → J < I + n → (Slots J).ModuleName ≠ "" →
      (Slots J).ModuleName ∈ M.map Prod.fst)
    (hdist : ∀ J K, I ≤ J → J < I + n → I ≤ K → K < I + n → J ≠ K →
      (Slots J).ModuleName ≠ "" → (Slots J).ModuleName ≠ (Slots K).ModuleName) :
    ∃ M1 W1, thinLinkLoop Slots n I (M, W) = some (M1, W1)
      ∧ M1.map Prod.fst = M.map Prod.fst
      ∧ (∀ J, I ≤ J → J < I + n → (Slots J).ModuleName ≠ "" →
          ∃ N0, M.find (Slots J).ModuleName = some N0
            ∧ M1.find (Slots J).ModuleName =
                some (visitedNode N0 J (Slots J).ImportsFilesList))
      ∧ (∀ k, (∀ J, I ≤ J → J < I + n → (Slots J).ModuleName ≠ "" →
            (Slots J).ModuleName ≠ k) → M1.find k = M.find k) := by
  induction n generalizing I M W with
  | zero =>
    refine ⟨M, W, rfl, rfl, ?_, fun _ _ => rfl⟩
    intro J h1 h2
    omega
  | succ n ih =>
    rw [thinLinkLoop_succ]
    by_cases h0 : (Slots I).ModuleName = ""
    · rw [if_pos h0]
      obtain ⟨M1, W1, e1, e2, e3, e4⟩ := ih (I + 1) M W
        (fun J a b c => hkeys J (by omega) (by omega) c)
        (fun J K a b c d => hdist J K (by omega) (by omega) (by omega) (by omega))
      refine ⟨M1, W1, e1, e2, ?_, ?_⟩
      · intro J a b c
        by_cases hJ : J = I
        · rw [hJ] at c
          exact absurd h0 c
        · exact e3 J (by omega) (by omega) c
      · intro k hk
        exact e4 k (fun J a b c => hk J (by omega) (by omega) c)
    · rw [if_neg h0]
      have hmem := hkeys I (le_refl I) (by omega) h0
      cases hf : M.find (Slots I).ModuleName with
      | none => exact absurd hmem ((find_eq_none_iff M _).mp hf)
      | some N0 =>
        simp only []
        obtain ⟨M1, W1, e1, e2, e3, e4⟩ := ih (I + 1)
          (M.assign (Slots I).ModuleName (visitedNode N0 I (Slots I).ImportsFilesList))
          (if (Slots I).SummaryIndexFile ≠ "" then
            (saveBuffer W (Slots I).SummaryIndexFile N0.SummaryIndexPath).1 else W)
          (fun J a b c => by
            rw [keys_assign]
            exact hkeys J (by omega) (by omega) c)
          (fun J K a b c d => hdist J K (by omega) (by omega) (by omega) (by omega))
        refine ⟨M1, W1, e1, e2.trans (keys_assign M _ _), ?_, ?_⟩
        · intro J a b c
          by_cases hJ : J = I
          · subst hJ
            refine ⟨N0, hf, ?_⟩
            rw [e4 (Slots J).ModuleName
              (fun K a1 b1 c1 => hdist K J (by omega) (by omega) (by omega) (by omega)
                (by omega) c1)]
            exact find_assign_same M _ _ hmem
          · obtain ⟨N1, f1, f2⟩ := e3 J (by omega) (by omega) c
            refine ⟨N1, ?_, f2⟩
            rw [← f1]
            exact (find_assign_ne M _ _ _
              (hdist J I (by omega) (by omega) (by omega) (by omega) hJ c)).symm
        · intro k hk
          rw [e4 k (fun J a b c => hk J (by omega) (by omega) c)]
          exact find_assign_ne M _ _ _ (fun e => hk I (le_refl I) (by omega) h0 e.symm)

/-- C4: after a successful analysis over `NumTasks` slots whose non-empty
module names (slots `1 .. NumTasks - 1`) are pairwise distinct registry keys,
`thinLink` succeeds; slot 0 is never matched against the registry (its content
does not matter); the unit named by slot `I ≥ 1` ends with task number `I` and
`Excluded = false`; and every unit that no such slot names is left as it was:
excluded and without a task number. -/
theorem thinLink_assigns_tasks (Host : HostTy) (Cfg : ConfigTy) (LTOObj : LTOTy)
    (W : WorldTy) (Slots : Nat → TaskSlot)
    (hrun : LTOObj.run = Except.ok Slots)
    (hpos : 0 < LTOObj.MaxTasks) (hlt : LTOObj.MaxTasks < 2 ^ 32)
    (hkeys : ∀ I, 1 ≤ I → I < LTOObj.MaxTasks → (Slots I).ModuleName ≠ "" →
      (Slots I).ModuleName ∈ (initBitcodeModulesMap Host Cfg).2.map Prod.fst)
    (hdist : ∀ I J, 1 ≤ I → I < LTOObj.MaxTasks → 1 ≤ J → J < LTOObj.MaxTasks → I ≠ J →
      (Slots I).ModuleName ≠ "" → (Slots I).ModuleName ≠ (Slots J).ModuleName) :
    ∃ M1 W1,
      thinLink LTOObj (initBitcodeModulesMap Host Cfg).2 W = some ([], M1, W1)
      ∧ (∀ Slot0, thinLink { LTOObj with run := Except.ok (Function.update Slots 0 Slot0) }
            (initBitcodeModulesMap Host Cfg).2 W = some ([], M1, W1))
      ∧ M1.WellFormed
      ∧ M1.map Prod.fst = (initBitcodeModulesMap Host Cfg).2.map Prod.fst
      ∧ (∀ I, 1 ≤ I → I < LTOObj.MaxTasks → (Slots I).ModuleName ≠ "" →
          ∃ N, ((Slots I).ModuleName, N) ∈ M1 ∧ N.ModuleId = (Slots I).ModuleName
            ∧ N.TaskNumber = some I ∧ N.Excluded = false)
      ∧ (∀ e ∈ (initBitcodeModulesMap Host Cfg).2,
          (∀ I, 1 ≤ I → I < LTOObj.MaxTasks → (Slots I).ModuleName ≠ "" →
            (Slots I).ModuleName ≠ e.1) →
          e ∈ M1 ∧ e.2.Excluded = true ∧ e.2.TaskNumber = none) := by
  obtain ⟨hwf0, hfr0⟩ := initBitcodeModulesMap_inv Host Cfg
  obtain ⟨M1, W1, e1, e2, e3, e4⟩ := thinLinkLoop_visits Slots (LTOObj.MaxTasks - 1) 1
    (initBitcodeModulesMap Host Cfg).2 W
    (fun J a b c => hkeys J a (by omega) c)
    (fun J K a b c d => hdist J K a (by omega) c (by omega))
  have hrange : ¬ (LTOObj.MaxTasks = 0 ∨ 2 ^ 32 ≤ LTOObj.MaxTasks) := by omega
  have hlink : thinLink LTOObj (initBitcodeModulesMap Host Cfg).2 W = some ([], M1, W1) := by
    unfold thinLink
    simp only [hrun, if_neg hrange, e1]
  obtain ⟨hwf, _, _⟩ := thinLink_preserves LTOObj _ M1 W W1 [] hlink hwf0
    (fresh_excludedUnnumbered _ hfr0)
  refine ⟨M1, W1, hlink, ?_, hwf, e2, ?_, ?_⟩
  · intro Slot0
    unfold thinLink
    simp only [if_neg hrange]
    rw [← thinLinkLoop_congr Slots (Function.update Slots 0 Slot0) _ 1 _
      (fun J hJ => by rw [Function.update_noteq (by omega)]), e1]
  · intro I a b c
    obtain ⟨N0, f1, f2⟩ := e3 I a (by omega) c
    refine ⟨_, find_some_mem M1 _ _ f2, ?_, rfl, rfl⟩
    exact hwf0.2 _ (find_some_mem _ _ N0 f1)
  · intro e he hk
    have f := e4 e.1 (fun J a b c => hk J a (by omega) c)
    rw [find_of_mem _ e.1 e.2 hwf0.1 he] at f
    exact ⟨find_some_mem M1 _ _ f, hfr0 e he⟩

/-- C4 on three registered units of which the analysis names `c.bc` in slot 1
and `a.bc` in slot 2: the thin link succeeds, `c.bc` gets task 1, `a.bc` gets
task 2 and `b.bc` stays excluded without a task number. -/
theorem thinLink_assigns_tasks_witness :
    ∃ M1 W1,
      thinLink partlySelectedLTO
        (initBitcodeModulesMap (hostWith mockBackend) scenarioAConfig).2 emptyWorld =
          some ([], M1, W1)
      ∧ (∀ Slot0, thinLink
            { partlySelectedLTO with
              run := Except.ok (Function.update (slotsSelecting ["c.bc", "a.bc"]) 0 Slot0) }
            (initBitcodeModulesMap (hostWith mockBackend) scenarioAConfig).2 emptyWorld =
              some ([], M1, W1))
      ∧ M1.WellFormed
      ∧ M1.map Prod.fst =
          (initBitcodeModulesMap (hostWith mockBackend) scenarioAConfig).2.map Prod.fst
      ∧ (∀ I, 1 ≤ I → I < partlySelectedLTO.MaxTasks →
          (slotsSelecting ["c.bc", "a.bc"] I).ModuleName ≠ "" →
          ∃ N, ((slotsSelecting ["c.bc", "a.bc"] I).ModuleName, N) ∈ M1
            ∧ N.ModuleId = (slotsSelecting ["c.bc", "a.bc"] I).ModuleName
            ∧ N.TaskNumber = some I ∧ N.Excluded = false)
      ∧ (∀ e ∈ (initBitcodeModulesMap (hostWith mockBackend) scenarioAConfig).2,
          (∀ I, 1 ≤ I → I < partlySelectedLTO.MaxTasks →
            (slotsSelecting ["c.bc", "a.bc"] I).ModuleName ≠ "" →
            (slotsSelecting ["c.bc", "a.bc"] I).ModuleName ≠ e.1) →
          e ∈ M1 ∧ e.2.Excluded = true ∧ e.2.TaskNumber = none) :=
  thinLink_assigns_tasks (hostWith mockBackend) scenarioAConfig partlySelectedLTO emptyWorld
    (slotsSelecting ["c.bc", "a.bc"]) rfl (by decide) (by decide)
    (by
      intro I h1 h2 _
      have h3 : I < 3 := h2
      interval_cases I <;> decide)
    (by
      intro I J h1 h2 h3 h4 h5 _
      have h6 : I < 3 := h2
      have h7 : J < 3 := h4
      interval_cases I <;> interval_cases J <;> first | decide | exact absurd rfl h5)

/-! ### Archive members -/

theorem hexdigit_ne_sep (n : Nat) : is_separator (hexdigit n) = false := by
  by_cases h : n < 16
  · interval_cases n <;> decide
  · have : hexdigit n = '0' := by
      unfold hexdigit
      rw [List.getD_eq_default]
      simp only [List.length_cons, List.length_nil]
      omega
    rw [this]
    decide

theorem utohexstrLoop_no_sep (fuel X : Nat) (acc : List Char)
    (h : ∀ c ∈ acc, is_separator c = false) :
    ∀ c ∈ utohexstrLoop fuel X acc, is_separator c = false := by
  induction fuel generalizing X acc with
  | zero => exact h
  | succ fuel ih =>
    unfold utohexstrLoop
    split_ifs with h0
    · exact h
    · apply ih
      intro c hc
      rcases List.mem_cons.mp hc with h1 | h1
      · rw [h1]
        exact hexdigit_ne_sep _
      · exact h c h1

theorem utohexstr_no_sep (X : Nat) : ∀ c ∈ (utohexstr X).data, is_separator c = false := by
  unfold utohexstr
  apply utohexstrLoop_no_sep
  intro c hc
  split_ifs at hc
  · simp only [List.mem_singleton] at hc
    rw [hc]
    decide
  · simp at hc

theorem afterLastSep_no_sep (str : List Char) : ∀ c ∈ afterLastSep str, is_separator c = false := by
  intro c hc
  unfold afterLastSep at hc
  rw [List.mem_reverse] at hc
  have := List.mem_takeWhile_imp hc
  simpa using this

theorem afterLastSep_of_no_sep (str : List Char) (h : ∀ c ∈ str, is_separator c = false) :
    afterLastSep str = str := by
  unfold afterLastSep
  rw [List.takeWhile_eq_self_iff.mpr, List.reverse_reverse]
  intro c hc
  simp [h c (List.mem_reverse.mp hc)]

theorem afterLastSep_suffix (str : List Char) : ∃ pre, str = pre ++ afterLastSep str := by
  have h := List.takeWhile_append_dropWhile (fun c => !is_separator c) str.reverse
  refine ⟨(str.reverse.dropWhile (fun c => !is_separator c)).reverse, ?_⟩
  unfold afterLastSep
  rw [← List.reverse_append, h, List.reverse_reverse]

theorem afterLastSep_drop (str : List Char) :
    str.drop (str.length - (afterLastSep str).length) = afterLastSep str := by
  obtain ⟨pre, hpre⟩ := afterLastSep_suffix str
  generalize afterLastSep str = tail at hpre
  subst hpre
  simp

theorem skipTrailingSeps_of_last (Path : List Char) (rd : Option Nat) (c : Char)
    (hl : Path.getLast? = some c) (hc : is_separator c = false) :
    skipTrailingSeps Path rd Path.length = Path.length := by
  rcases List.eq_nil_or_concat Path with h | ⟨init, d, h⟩
  · subst h
    rfl
  · rw [List.concat_eq_append] at h
    subst h
    rw [List.getLast?_concat] at hl
    simp only [Option.some.injEq] at hl
    subst hl
    simp [skipTrailingSeps, hc]

theorem filename_of_last (path : String) (c : Char) (hl : path.data.getLast? = some c)
    (hc : is_separator c = false) :
    (filename path).data = path.data.drop (filename_pos path.data) := by
  unfold filename
  simp only [hl, hc, Bool.false_and, skipTrailingSeps_of_last path.data _ c hl hc,
    List.take_length]
  simp

theorem filename_pos_of_last (str : List Char) (c : Char) (hl : str.getLast? = some c)
    (hc : is_separator c = false) :
    str.drop (filename_pos str) = str ∨ str.drop (filename_pos str) = afterLastSep str := by
  unfold filename_pos
  simp only [hl, hc]
  simp only [Bool.false_eq_true, if_false]
  split_ifs
  · exact Or.inl rfl
  · exact Or.inl rfl
  · exact Or.inr (afterLastSep_drop str)

/-- A name followed by a non-empty separator-free suffix is never its own file
name followed by that suffix. -/
theorem filename_append_ne (path : String) (T : List Char) (hT : T ≠ [])
    (hsep : ∀ c ∈ T, is_separator c = false) :
    (filename path).data ++ T ≠ path.data := by
  intro heq
  obtain ⟨init, c, hTc⟩ : ∃ init c, T = init ++ [c] := by
    rcases List.eq_nil_or_concat T with h | ⟨L, b, h⟩
    · exact absurd h hT
    · exact ⟨L, b, by rw [h, List.concat_eq_append]⟩
  have hc : is_separator c = false := hsep c (by simp [hTc])
  have hl : path.data.getLast? = some c := by
    rw [← heq, hTc, ← List.append_assoc]
    simp
  have hlen : ((filename path).data ++ T).length = path.data.length := by rw [heq]
  have hTlen : 0 < T.length := List.length_pos.mpr hT
  rw [List.length_append] at hlen
  rcases filename_pos_of_last path.data c hl hc with h | h
  · rw [filename_of_last path c hl hc, h] at hlen
    omega
  · have hfn : (filename path).data = afterLastSep path.data := by
      rw [filename_of_last path c hl hc, h]
    have hno : ∀ x ∈ path.data, is_separator x = false := by
      intro x hx
      rw [← heq] at hx
      rcases List.mem_append.mp hx with h1 | h1
      · rw [hfn] at h1
        exact afterLastSep_no_sep _ x h1
      · exact hsep x h1
    rw [hfn, afterLastSep_of_no_sep _ hno] at hlen
    omega

theorem NewModuleId_data (ProcessId : Nat) (ModuleId : String) :
    (NewModuleId ProcessId ModuleId).data =
      (filename ModuleId).data ++ ('.' :: (utohexstr ProcessId).data ++ ['.', 'o']) := by
  simp [NewModuleId, String.data_append]

theorem NewModuleId_ne (ProcessId : Nat) (ModuleId : String) :
    NewModuleId ProcessId ModuleId ≠ ModuleId := by
  intro h
  have h1 := congrArg String.data h
  rw [NewModuleId_data] at h1
  refine filename_append_ne ModuleId _ (by simp) ?_ h1
  intro c hc
  simp only [List.cons_append, List.mem_cons, List.mem_append, List.mem_singleton,
    List.not_mem_nil, or_false] at hc
  rcases hc with h2 | h2 | h2 | h2
  · rw [h2]; decide
  · exact utohexstr_no_sep _ c h2
  · rw [h2]; decide
  · rw [h2]; decide

theorem NewModuleId_eq_iff (ProcessId : Nat) (A B : String) :
    NewModuleId ProcessId A = NewModuleId ProcessId B ↔ filename A = filename B := by
  constructor
  · intro h
    have h1 := congrArg String.data h
    rw [NewModuleId_data, NewModuleId_data] at h1
    exact String.ext (List.append_cancel_right h1)
  · intro h
    unfold NewModuleId
    rw [h]


theorem addInput_archive (ProcessId : Nat) (Cfg : ConfigTy) (W : WorldTy) (Input : InputFile)
    (h : Input.FileType = InputFileType.SOLID_ARCHIVE_MEMBER) :
    (Cfg.addInput ProcessId W Input).1.InputFiles =
      Cfg.InputFiles ++
        [{ Input with ModuleIdentifier := NewModuleId ProcessId Input.getName }] := by
  simp [ConfigTy.addInput, h]

/-- C5, as the code has it: two archive members named `lib1/a.o` and
`lib2/a.o` get the same module id `a.o.1F.o`, and the registry ends with one
unit for both. -/
theorem addInput_same_filename_counterexample :
    "lib1/a.o" ≠ "lib2/a.o"
    ∧ filename "lib1/a.o" = filename "lib2/a.o"
    ∧ twoArchivesConfig.1.InputFiles.map InputFile.getName = ["a.o.1F.o", "a.o.1F.o"]
    ∧ (initBitcodeModulesMap (hostWith mockBackend) twoArchivesConfig.1).2.map Prod.fst =
        ["a.o.1F.o"] := by
  decide

/-- C5 amended: for two archive members registered in the same session, the
module ids that `addInput` synthesizes are equal exactly when the file name
components of their original names are equal; so members with different file
names get distinct ids, and members with the same file name get the same id,
whatever archives they come from. -/
theorem addInput_archive_ids (ProcessId : Nat) (Cfg : ConfigTy) (W : WorldTy)
    (A B : InputFile)
    (hA : A.FileType = InputFileType.SOLID_ARCHIVE_MEMBER)
    (hB : B.FileType = InputFileType.SOLID_ARCHIVE_MEMBER) :
    ((Cfg.addInput ProcessId W A).1.addInput ProcessId
        (Cfg.addInput ProcessId W A).2 B).1.InputFiles.map InputFile.getName =
      Cfg.InputFiles.map InputFile.getName ++
        [NewModuleId ProcessId A.getName, NewModuleId ProcessId B.getName]
    ∧ (NewModuleId ProcessId A.getName = NewModuleId ProcessId B.getName ↔
        filename A.getName = filename B.getName) := by
  refine ⟨?_, NewModuleId_eq_iff ProcessId _ _⟩
  rw [addInput_archive _ _ _ B hB, addInput_archive _ _ _ A hA]
  simp [InputFile.getName]

/-- C5 amended on the members `lib1/a.o` and `lib2/b.o`: the ids are
`a.o.1F.o` and `b.o.1F.o`. -/
theorem addInput_archive_ids_witness :
    NewModuleId 31 "lib1/a.o" = "a.o.1F.o" ∧ NewModuleId 31 "lib2/b.o" = "b.o.1F.o"
    ∧ (((configOf []).addInput 31 emptyWorld (archiveMember "lib1/a.o" 4)).1.addInput 31
        ((configOf []).addInput 31 emptyWorld (archiveMember "lib1/a.o" 4)).2
        (archiveMember "lib2/b.o" 6)).1.InputFiles.map InputFile.getName =
      (configOf []).InputFiles.map InputFile.getName ++
        [NewModuleId 31 (archiveMember "lib1/a.o" 4).getName,
         NewModuleId 31 (archiveMember "lib2/b.o" 6).getName]
    ∧ (NewModuleId 31 (archiveMember "lib1/a.o" 4).getName =
        NewModuleId 31 (archiveMember "lib2/b.o" 6).getName ↔
        filename (archiveMember "lib1/a.o" 4).getName =
          filename (archiveMember "lib2/b.o" 6).getName) :=
  ⟨by decide, by decide,
    addInput_archive_ids 31 (configOf []) emptyWorld (archiveMember "lib1/a.o" 4)
      (archiveMember "lib2/b.o" 6) rfl rfl⟩

/-- C6, as the code has it: the member `a.o` of `lib.a` is registered under
the key `a.o.1F.o`, which does not contain the archive name `lib.a`. -/
theorem addInput_key_counterexample :
    scenarioBConfig.1.InputFiles.map InputFile.getName = ["a.o.1F.o"]
    ∧ (initBitcodeModulesMap (hostWith mockBackend) scenarioBConfig.1).2.map Prod.fst =
        ["a.o.1F.o"]
    ∧ ¬ ("lib.a".data <:+: "a.o.1F.o".data) := by
  decide

/-- C6 amended: for every archive member, the name that `addInput` gives it,
which is its registry key, is the file name component of the original name,
a dot, the process id in hexadecimal and `.o`; it differs from the original
name and embeds the process id; the archive's name is not part of it. -/
theorem addInput_archive_key (Host : HostTy) (Cfg : ConfigTy) (W : WorldTy)
    (Input : InputFile) (ModulePath : String)
    (hA : Input.FileType = InputFileType.SOLID_ARCHIVE_MEMBER)
    (hempty : Cfg.InputFiles = [])
    (habs : Host.make_absolute (NewModuleId Host.ProcessId Input.getName) =
      Except.ok ModulePath) :
    (Cfg.addInput Host.ProcessId W Input).1.InputFiles.map InputFile.getName =
      [NewModuleId Host.ProcessId Input.getName]
    ∧ (initBitcodeModulesMap Host (Cfg.addInput Host.ProcessId W Input).1).2.map Prod.fst =
      [NewModuleId Host.ProcessId Input.getName]
    ∧ NewModuleId Host.ProcessId Input.getName =
        filename Input.getName ++ "." ++ utohexstr Host.ProcessId ++ ".o"
    ∧ NewModuleId Host.ProcessId Input.getName ≠ Input.getName
    ∧ (filename Input.getName).data <+: (NewModuleId Host.ProcessId Input.getName).data
    ∧ (utohexstr Host.ProcessId).data <:+: (NewModuleId Host.ProcessId Input.getName).data := by
  have hin := addInput_archive Host.ProcessId Cfg W Input hA
  rw [hempty, List.nil_append] at hin
  refine ⟨?_, ?_, rfl, NewModuleId_ne _ _, ?_, ?_⟩
  · rw [hin]
    rfl
  · unfold initBitcodeModulesMap
    rw [hin]
    simp only [InputFile.getName] at habs
    simp only [initBitcodeModulesMapLoop, InputFile.getName, habs]
    rfl
  · rw [NewModuleId_data]
    exact List.prefix_append _ _
  · rw [NewModuleId_data]
    refine ⟨(filename Input.getName).data ++ ['.'], ['.', 'o'], ?_⟩
    simp

/-- C6 amended on scenario B: the member `a.o` gets the key `a.o.1F.o`. -/
theorem addInput_archive_key_witness :
    NewModuleId 31 "a.o" = "a.o.1F.o"
    ∧ (((configOf []).addInput (hostWith mockBackend).ProcessId emptyWorld
          (archiveMember "a.o" 4)).1.InputFiles.map InputFile.getName =
        [NewModuleId (hostWith mockBackend).ProcessId (archiveMember "a.o" 4).getName]
      ∧ (initBitcodeModulesMap (hostWith mockBackend)
          ((configOf []).addInput (hostWith mockBackend).ProcessId emptyWorld
            (archiveMember "a.o" 4)).1).2.map Prod.fst =
        [NewModuleId (hostWith mockBackend).ProcessId (archiveMember "a.o" 4).getName]
      ∧ NewModuleId (hostWith mockBackend).ProcessId (archiveMember "a.o" 4).getName =
          filename (archiveMember "a.o" 4).getName ++ "." ++
            utohexstr (hostWith mockBackend).ProcessId ++ ".o"
      ∧ NewModuleId (hostWith mockBackend).ProcessId (archiveMember "a.o" 4).getName ≠
          (archiveMember "a.o" 4).getName
      ∧ (filename (archiveMember "a.o" 4).getName).data <+:
          (NewModuleId (hostWith mockBackend).ProcessId (archiveMember "a.o" 4).getName).data
      ∧ (utohexstr (hostWith mockBackend).ProcessId).data <:+:
          (NewModuleId (hostWith mockBackend).ProcessId
            (archiveMember "a.o" 4).getName).data) :=
  ⟨by decide,
    addInput_archive_key (hostWith mockBackend) (configOf []) emptyWorld
      (archiveMember "a.o" 4) ("/w/" ++ NewModuleId 31 "a.o") rfl rfl rfl⟩

/-! ### Backend failure and harvesting -/

theorem harvestStep_eq (FS : FileSystem) (H : HarvestTy) (e : String × BitcodeNodeTy) :
    (harvestStep FS H e).BcNodeMap = H.BcNodeMap ++ [harvestedEntry FS e]
    ∧ (harvestStep FS H e).E = H.E ++ (harvestError FS e).toList
    ∧ (harvestStep FS H e).AddedBuffers = H.AddedBuffers ++ (harvestedBuffer FS e).toList := by
  unfold harvestStep harvestedEntry harvestError harvestedBuffer FileSystem.exists
    FileSystem.getFile joinErrors
  cases hE : e.2.Excluded
  · cases hf : FS.files e.2.NativeObjectPath with
    | none => simp [hE, hf]
    | some f =>
      cases f with
      | file c => simp [hE, hf]
      | unreadable ec => simp [hE, hf]
  · simp [hE]

theorem harvest_foldl (FS : FileSystem) (M : BitcodeNodeMapTy) (H : HarvestTy) :
    (M.foldl (harvestStep FS) H).BcNodeMap = H.BcNodeMap ++ M.map (harvestedEntry FS)
    ∧ (M.foldl (harvestStep FS) H).E = H.E ++ M.filterMap (harvestError FS)
    ∧ (M.foldl (harvestStep FS) H).AddedBuffers =
        H.AddedBuffers ++ M.filterMap (harvestedBuffer FS) := by
  induction M generalizing H with
  | nil => simp
  | cons e M ih =>
    obtain ⟨a, b, c⟩ := ih (harvestStep FS H e)
    obtain ⟨a1, b1, c1⟩ := harvestStep_eq FS H e
    rw [List.foldl_cons, a, b, c, a1, b1, c1]
    refine ⟨by simp, ?_, ?_⟩
    · cases h : harvestError FS e <;> simp [List.filterMap_cons, h]
    · cases h : harvestedBuffer FS e <;> simp [List.filterMap_cons, h]

theorem harvest_eq (FS : FileSystem) (M : BitcodeNodeMapTy) :
    (harvest FS M []).BcNodeMap = M.map (harvestedEntry FS)
    ∧ (harvest FS M []).E = M.filterMap (harvestError FS)
    ∧ (harvest FS M []).AddedBuffers = M.filterMap (harvestedBuffer FS) := by
  unfold harvest
  obtain ⟨a, b, c⟩ := harvest_foldl FS M { BcNodeMap := [], E := [], AddedBuffers := [] }
  rw [a, b, c]
  simp

theorem harvestError_eq_none (FS : FileSystem) (e : String × BitcodeNodeTy) :
    harvestError FS e = none ↔
      (e.2.Excluded = false → ∃ c, FS.files e.2.NativeObjectPath = some (FileEntry.file c)) := by
  unfold harvestError
  cases hE : e.2.Excluded
  · cases hf : FS.files e.2.NativeObjectPath with
    | none => simp [hE, hf]
    | some f =>
      cases f with
      | file c => simp [hE, hf]
      | unreadable ec => simp [hE, hf]
  · simp [hE]

/-- C7, as the code has it: the backend wrote both native objects and returned
1; `codeGenImpl` returns the backend failure and delivers no buffer. -/
theorem backend_failure_counterexample :
    failedBackendWorld.map (fun W =>
        (W.FS.files "/w/first.bc.1F.native.o", W.FS.files "/w/second.bc.1F.native.o")) =
      some (some (FileEntry.file "first.bc"), some (FileEntry.file "second.bc"))
    ∧ failedOutcome.map (fun o => o.PluginCall.map (fun c => c.Code)) = some (some 1)
    ∧ failedOutcome.map (fun o => o.Result) =
      some [ErrorInfo.pluginCodegenFailed "local" 1, ErrorInfo.codegenFailedOnDbs "local"]
    ∧ failedOutcome.map (fun o => o.AddedBuffers) = some []
    ∧ failedOutcome.map (fun o => o.BcNodeMap.map (fun e => (e.1, e.2.Excluded))) =
      some [("first.bc", false), ("second.bc", false)] := by
  refine ⟨?_, ?_, ?_, ?_, ?_⟩ <;> decide

/-- C7 amended: when the backend entry point returns a non-zero code,
`codeGenImpl` returns at once with the backend failure (backend identifier and
code) joined with "Codegen failed on distributed build system"; the harvest
loop does not run: nothing is delivered to `AddBufferFunc`, no missing-output
error is recorded and the registry stays as the thin link left it. -/
theorem codeGenImpl_backend_failure (Host : HostTy)
    (std_sort : (dtltoBitcodeNodeTy → dtltoBitcodeNodeTy → Bool) →
      List dtltoBitcodeNodeTy → List dtltoBitcodeNodeTy)
    (Cfg : ConfigTy) (LTOObj : LTOTy) (W W1 : WorldTy) (E : Error) (M1 : BitcodeNodeMapTy)
    (Out : OutcomeTy) (Call : PluginCallTy)
    (hlink : thinLink LTOObj (initBitcodeModulesMap Host Cfg).2 W = some (E, M1, W1))
    (hrun : codeGenImpl Host std_sort Cfg LTOObj W = some Out)
    (hcall : Out.PluginCall = some Call)
    (hcode : Call.Code ≠ 0) :
    Out.Result = [ErrorInfo.pluginCodegenFailed Cfg.DbsKind Call.Code,
                  ErrorInfo.codegenFailedOnDbs Cfg.DbsKind]
    ∧ Out.AddedBuffers = []
    ∧ Out.BcNodeMap = M1 := by
  obtain ⟨M2, W2, _, hl2, _, _, _, hfail, _⟩ :=
    codeGenImpl_reached_plugin Host std_sort Cfg LTOObj W Out Call hrun hcall
  rw [hlink] at hl2
  simp only [Option.some.injEq, Prod.mk.injEq] at hl2
  obtain ⟨a, b, c⟩ := hfail hcode
  exact ⟨a, c, b.trans hl2.2.1.symm⟩

/-- C7 amended on the two units whose backend writes the objects and returns
1. -/
theorem codeGenImpl_backend_failure_witness :
    ∃ Out Call M1 W1,
      thinLink tieLTO (initBitcodeModulesMap (hostWith failingBackend) tieConfig).2
        emptyWorld = some ([], M1, W1)
      ∧ failedOutcome = some Out ∧ Out.PluginCall = some Call ∧ Call.Code = 1
      ∧ Out.Result = [ErrorInfo.pluginCodegenFailed tieConfig.DbsKind Call.Code,
                      ErrorInfo.codegenFailedOnDbs tieConfig.DbsKind]
      ∧ Out.AddedBuffers = []
      ∧ Out.BcNodeMap = M1 := by
  have h0 : failedOutcome.bind (fun o => o.PluginCall.map (fun c => c.Code)) = some 1 := by
    decide
  have h1 : (thinLink tieLTO (initBitcodeModulesMap (hostWith failingBackend) tieConfig).2
      emptyWorld).map (fun r => r.1) = some [] := by
    decide
  cases hrun : failedOutcome with
  | none =>
    rw [hrun] at h0
    simp at h0
  | some Out =>
    rw [hrun] at h0
    simp only [Option.some_bind, Option.map_eq_some'] at h0
    obtain ⟨Call, hcall, hcode⟩ := h0
    cases hlink : thinLink tieLTO
        (initBitcodeModulesMap (hostWith failingBackend) tieConfig).2 emptyWorld with
    | none =>
      rw [hlink] at h1
      simp at h1
    | some R =>
      obtain ⟨E, M1, W1⟩ := R
      rw [hlink] at h1
      simp only [Option.map_some', Option.some.injEq] at h1
      subst h1
      obtain ⟨a, b, c⟩ := codeGenImpl_backend_failure (hostWith failingBackend)
        insertionStdSort tieConfig tieLTO emptyWorld W1 [] M1 Out Call hlink hrun hcall
        (by rw [hcode]; decide)
      exact ⟨Out, Call, M1, W1, rfl, rfl, hcall, hcode, a, b, c⟩

/-- C8: when the backend returns success, the harvest loop of `codeGenImpl`
visits every unit of the registry; a unit that is not excluded and whose
native object is absent contributes one error and stays `Excluded = false`;
every unit that is not excluded and whose file is readable is delivered to
`AddBufferFunc` with its task number, its id and the content of the file, and
is then excluded; the returned error is success exactly when no unit that is
not excluded was missing or unreadable. `FS` is the file system as the backend
left it. -/
theorem codeGenImpl_harvest (Host : HostTy)
    (std_sort : (dtltoBitcodeNodeTy → dtltoBitcodeNodeTy → Bool) →
      List dtltoBitcodeNodeTy → List dtltoBitcodeNodeTy)
    (Cfg : ConfigTy) (LTOObj : LTOTy) (W W1 : WorldTy) (E : Error) (M1 : BitcodeNodeMapTy)
    (Out : OutcomeTy) (Call : PluginCallTy) (FS : FileSystem)
    (hlink : thinLink LTOObj (initBitcodeModulesMap Host Cfg).2 W = some (E, M1, W1))
    (hrun : codeGenImpl Host std_sort Cfg LTOObj W = some Out)
    (hcall : Out.PluginCall = some Call)
    (hcode : Call.Code = 0)
    (hFS : (performCodegenWithPlugin Host Cfg W1 (sortedBitcodesList std_sort M1)
        (mapCGOptionsToClangOptions Host.isWin32 LTOObj.Config [])).2.1.FS = FS) :
    Out.BcNodeMap = M1.map (harvestedEntry FS)
    ∧ Out.Result = M1.filterMap (harvestError FS)
    ∧ Out.AddedBuffers = M1.filterMap (harvestedBuffer FS)
    ∧ (∀ e ∈ M1, e.2.Excluded = false → FS.files e.2.NativeObjectPath = none →
        e ∈ Out.BcNodeMap ∧ harvestError FS e = some ErrorInfo.noSuchFileOrDirectory)
    ∧ (∀ e ∈ M1, ∀ content, e.2.Excluded = false →
        FS.files e.2.NativeObjectPath = some (FileEntry.file content) →
        { Task := e.2.TaskNumber, ModuleName := e.2.ModuleId, Buffer := content } ∈
          Out.AddedBuffers
        ∧ (e.1, { e.2 with Excluded := true }) ∈ Out.BcNodeMap
        ∧ harvestError FS e = none)
    ∧ (Out.Result = [] ↔
        ∀ e ∈ M1, e.2.Excluded = false →
          ∃ content, FS.files e.2.NativeObjectPath = some (FileEntry.file content)) := by
  obtain ⟨M2, W2, _, hl2, _, _, _, _, hok⟩ :=
    codeGenImpl_reached_plugin Host std_sort Cfg LTOObj W Out Call hrun hcall
  rw [hlink] at hl2
  simp only [Option.some.injEq, Prod.mk.injEq] at hl2
  obtain ⟨_, hM, hW⟩ := hl2
  subst hM hW
  obtain ⟨r1, r2, r3⟩ := hok hcode
  rw [hFS] at r1 r2 r3
  obtain ⟨q1, q2, q3⟩ := harvest_eq FS M1
  rw [q2] at r1
  rw [q1] at r2
  rw [q3] at r3
  refine ⟨r2, r1, r3, ?_, ?_, ?_⟩
  · intro e he hE hf
    constructor
    · rw [r2]
      refine List.mem_map.mpr ⟨e, he, ?_⟩
      simp [harvestedEntry, hE, hf]
    · simp [harvestError, hE, hf]
  · intro e he content hE hf
    refine ⟨?_, ?_, ?_⟩
    · rw [r3]
      refine List.mem_filterMap.mpr ⟨e, he, ?_⟩
      simp [harvestedBuffer, hE, hf]
    · rw [r2]
      refine List.mem_map.mpr ⟨e, he, ?_⟩
      simp [harvestedEntry, hE, hf]
    · simp [harvestError, hE, hf]
  · rw [r1, List.filterMap_eq_nil_iff]
    constructor
    · intro h e he
      exact (harvestError_eq_none FS e).mp (h e he)
    · intro h e he
      exact (harvestError_eq_none FS e).mpr (h e he)


/-- C8 on scenario A with a backend that succeeds without producing the object
of `b.bc`: `a.bc` and `c.bc` are delivered with their task numbers and become
excluded, `b.bc` contributes the one error and stays `Excluded = false`. -/
theorem codeGenImpl_harvest_witness :
    ∃ Out Call M1 W1,
      thinLink scenarioALTO
        (initBitcodeModulesMap (hostWith (skippingBackend "b.bc" 0)) scenarioAConfig).2
        emptyWorld = some ([], M1, W1)
      ∧ skippedOutcome = some Out ∧ Out.PluginCall = some Call ∧ Call.Code = 0
      ∧ Out.Result = [ErrorInfo.noSuchFileOrDirectory]
      ∧ Out.AddedBuffers =
          [{ Task := some 1, ModuleName := "a.bc", Buffer := "a.bc" },
           { Task := some 3, ModuleName := "c.bc", Buffer := "c.bc" }]
      ∧ Out.BcNodeMap.map (fun e => (e.1, e.2.Excluded)) =
          [("a.bc", true), ("b.bc", false), ("c.bc", true)]
      ∧ (Out.BcNodeMap = M1.map (harvestedEntry (skippedBackendFS M1 W1))
        ∧ Out.Result = M1.filterMap (harvestError (skippedBackendFS M1 W1))
        ∧ Out.AddedBuffers = M1.filterMap (harvestedBuffer (skippedBackendFS M1 W1))
        ∧ (∀ e ∈ M1, e.2.Excluded = false →
            (skippedBackendFS M1 W1).files e.2.NativeObjectPath = none →
            e ∈ Out.BcNodeMap
            ∧ harvestError (skippedBackendFS M1 W1) e = some ErrorInfo.noSuchFileOrDirectory)
        ∧ (∀ e ∈ M1, ∀ content, e.2.Excluded = false →
            (skippedBackendFS M1 W1).files e.2.NativeObjectPath =
              some (FileEntry.file content) →
            { Task := e.2.TaskNumber, ModuleName := e.2.ModuleId, Buffer := content } ∈
              Out.AddedBuffers
            ∧ (e.1, { e.2 with Excluded := true }) ∈ Out.BcNodeMap
            ∧ harvestError (skippedBackendFS M1 W1) e = none)
        ∧ (Out.Result = [] ↔
            ∀ e ∈ M1, e.2.Excluded = false →
              ∃ content, (skippedBackendFS M1 W1).files e.2.NativeObjectPath =
                some (FileEntry.file content))) := by
  have h0 : skippedOutcome.bind (fun o => o.PluginCall.map (fun c => c.Code)) = some 0 := by
    decide
  have h1 : (thinLink scenarioALTO
      (initBitcodeModulesMap (hostWith (skippingBackend "b.bc" 0)) scenarioAConfig).2
      emptyWorld).map (fun r => r.1) = some [] := by
    decide
  have h2 : skippedOutcome.map (fun o => o.Result) =
      some [ErrorInfo.noSuchFileOrDirectory] := by
    decide
  have h3 : skippedOutcome.map (fun o => o.AddedBuffers) =
      some [{ Task := some 1, ModuleName := "a.bc", Buffer := "a.bc" },
            { Task := some 3, ModuleName := "c.bc", Buffer := "c.bc" }] := by
    decide
  have h4 : skippedOutcome.map (fun o => o.BcNodeMap.map (fun e => (e.1, e.2.Excluded))) =
      some [("a.bc", true), ("b.bc", false), ("c.bc", true)] := by
    decide
  cases hrun : skippedOutcome with
  | none =>
    rw [hrun] at h0
    simp at h0
  | some Out =>
    rw [hrun] at h0 h2 h3 h4
    simp only [Option.some_bind, Option.map_eq_some', Option.map_some',
      Option.some.injEq] at h0 h2 h3 h4
    obtain ⟨Call, hcall, hcode⟩ := h0
    cases hlink : thinLink scenarioALTO
        (initBitcodeModulesMap (hostWith (skippingBackend "b.bc" 0)) scenarioAConfig).2
        emptyWorld with
    | none =>
      rw [hlink] at h1
      simp at h1
    | some R =>
      obtain ⟨E, M1, W1⟩ := R
      rw [hlink] at h1
      simp only [Option.map_some', Option.some.injEq] at h1
      subst h1
      exact ⟨Out, Call, M1, W1, rfl, rfl, hcall, hcode, h2, h3, h4,
        codeGenImpl_harvest (hostWith (skippingBackend "b.bc" 0)) insertionStdSort
          scenarioAConfig scenarioALTO emptyWorld W1 [] M1 Out Call (skippedBackendFS M1 W1)
          hlink hrun hcall hcode rfl⟩

/-! ### Cleanup -/

theorem map_assign {β : Type} (f : String × BitcodeNodeTy → β) (M : BitcodeNodeMapTy)
    (k : String) (N V : BitcodeNodeTy) (hfind : M.find k = some N)
    (hf : f (k, V) = f (k, N)) : (M.assign k V).map f = M.map f := by
  induction M with
  | nil => rfl
  | cons e M ih =>
    obtain ⟨k1, v1⟩ := e
    by_cases hk : k1 = k
    · subst hk
      simp only [BitcodeNodeMapTy.find, if_true, Option.some.injEq] at hfind
      subst hfind
      simp [BitcodeNodeMapTy.assign, hf]
    · simp only [BitcodeNodeMapTy.find, hk, if_false] at hfind
      simp [BitcodeNodeMapTy.assign, hk, ih hfind]

theorem saveBuffer_removals (W : WorldTy) (B P : String) :
    (saveBuffer W B P).1.Removals = W.Removals := by
  unfold saveBuffer
  cases W.FS.denied P <;> rfl

theorem thinLinkLoop_frame {β : Type} (f : String × BitcodeNodeTy → β)
    (hf : ∀ k N I V, f (k, visitedNode N I V) = f (k, N))
    (Slots : Nat → TaskSlot) (n I : Nat) (M M1 : BitcodeNodeMapTy) (W W1 : WorldTy)
    (h : thinLinkLoop Slots n I (M, W) = some (M1, W1)) :
    M1.map f = M.map f ∧ W1.Removals = W.Removals := by
  induction n generalizing I M W with
  | zero =>
    simp only [thinLinkLoop, Option.some.injEq, Prod.mk.injEq] at h
    rw [← h.1, ← h.2]
    exact ⟨rfl, rfl⟩
  | succ n ih =>
    rw [thinLinkLoop_succ] at h
    by_cases h0 : (Slots I).ModuleName = ""
    · rw [if_pos h0] at h
      exact ih (I + 1) M W h
    · rw [if_neg h0] at h
      cases hfd : M.find (Slots I).ModuleName with
      | none => simp [hfd] at h
      | some N =>
        rw [hfd] at h
        obtain ⟨a, b⟩ := ih (I + 1) _ _ h
        refine ⟨a.trans (map_assign f M _ N _ hfd (hf _ _ _ _)), ?_⟩
        rw [b]
        by_cases hs : (Slots I).SummaryIndexFile ≠ ""
        · rw [if_pos hs]
          exact saveBuffer_removals _ _ _
        · rw [if_neg hs]

theorem thinLink_frame {β : Type} (f : String × BitcodeNodeTy → β)
    (hf : ∀ k N I V, f (k, visitedNode N I V) = f (k, N))
    (LTOObj : LTOTy) (M M1 : BitcodeNodeMapTy) (W W1 : WorldTy) (E : Error)
    (h : thinLink LTOObj M W = some (E, M1, W1)) :
    M1.map f = M.map f ∧ W1.Removals = W.Removals := by
  unfold thinLink at h
  cases hr : LTOObj.run with
  | error msg =>
    simp only [hr, Option.some.injEq, Prod.mk.injEq] at h
    rw [← h.2.1, ← h.2.2]
    exact ⟨rfl, rfl⟩
  | ok Slots =>
    simp only [hr] at h
    split_ifs at h with h0
    cases hl : thinLinkLoop Slots (LTOObj.MaxTasks - 1) 1 (M, W) with
    | none => simp [hl] at h
    | some S =>
      obtain ⟨M2, W2⟩ := S
      simp only [hl, Option.some.injEq, Prod.mk.injEq] at h
      rw [← h.2.1, ← h.2.2]
      exact thinLinkLoop_frame f hf Slots _ 1 M M2 W W2 hl

theorem performCodegenWithPlugin_removals (Host : HostTy) (Cfg : ConfigTy) (W : WorldTy)
    (L : List dtltoBitcodeNodeTy) (Args : List String) (hframe : Host.BackendKeepsRemovals) :
    (performCodegenWithPlugin Host Cfg W L Args).2.1.Removals = W.Removals := by
  unfold performCodegenWithPlugin
  simp only []
  by_cases h0 : Host.getMainExecutable Cfg.Argv0 = ""
  · rw [if_pos h0]
  · rw [if_neg h0]
    cases hlib : Host.getPermanentLibrary
        (PluginPathOf Host Cfg (Host.getMainExecutable Cfg.Argv0)) with
    | error msg => rfl
    | ok sym =>
      cases sym with
      | none => rfl
      | some PerformCodegen =>
        simp only []
        have := hframe _ _ hlib Cfg.DbsKind L Args W
        by_cases hc : (PerformCodegen Cfg.DbsKind L Args W).1 ≠ 0
        · rw [if_pos hc]
          exact this
        · rw [if_neg hc]
          exact this

theorem map_harvestedEntry {β : Type} (f : String × BitcodeNodeTy → β)
    (hf : ∀ k (N : BitcodeNodeTy), f (k, { N with Excluded := true }) = f (k, N))
    (FS : FileSystem) (M : BitcodeNodeMapTy) :
    (M.map (harvestedEntry FS)).map f = M.map f := by
  rw [List.map_map]
  apply List.map_congr_left
  intro e _
  unfold harvestedEntry
  simp only [Function.comp]
  split_ifs
  · rfl
  · split
    · exact hf _ _
    · rfl

theorem codeGenGuarded_frame {β : Type} (f : String × BitcodeNodeTy → β)
    (hf1 : ∀ k N I V, f (k, visitedNode N I V) = f (k, N))
    (hf2 : ∀ k (N : BitcodeNodeTy), f (k, { N with Excluded := true }) = f (k, N))
    (Host : HostTy)
    (std_sort : (dtltoBitcodeNodeTy → dtltoBitcodeNodeTy → Bool) →
      List dtltoBitcodeNodeTy → List dtltoBitcodeNodeTy)
    (Cfg : ConfigTy) (LTOObj : LTOTy) (M : BitcodeNodeMapTy) (W : WorldTy) (G : OutcomeTy)
    (hframe : Host.BackendKeepsRemovals)
    (h : codeGenGuarded Host std_sort Cfg LTOObj M W = some G) :
    G.BcNodeMap.map f = M.map f ∧ G.World.Removals = W.Removals := by
  unfold codeGenGuarded at h
  cases hl : thinLink LTOObj M W with
  | none => simp [hl] at h
  | some R =>
    obtain ⟨E0, M1, W1⟩ := R
    obtain ⟨a, b⟩ := thinLink_frame f hf1 LTOObj M M1 W W1 E0 hl
    simp only [hl] at h
    by_cases hE0 : E0 ≠ []
    · rw [if_pos hE0] at h
      simp only [Option.some.injEq] at h
      subst h
      exact ⟨a, b⟩
    · rw [if_neg hE0] at h
      have hp := performCodegenWithPlugin_removals Host Cfg W1
        (sortedBitcodesList std_sort M1)
        (mapCGOptionsToClangOptions Host.isWin32 LTOObj.Config []) hframe
      by_cases hE : (performCodegenWithPlugin Host Cfg W1 (sortedBitcodesList std_sort M1)
          (mapCGOptionsToClangOptions Host.isWin32 LTOObj.Config [])).1 ≠ []
      · rw [if_pos hE] at h
        simp only [Option.some.injEq] at h
        subst h
        exact ⟨a, hp.trans b⟩
      · rw [if_neg hE] at h
        simp only [Option.some.injEq] at h
        subst h
        refine ⟨?_, hp.trans b⟩
        simp only [ne_eq, not_not] at hE
        rw [hE, (harvest_eq _ M1).1, map_harvestedEntry f hf2, a]

theorem Remove_removals (W : WorldTy) (Path : String) :
    (Remove W Path).Removals = W.Removals ++ [Path] := by
  unfold Remove
  simp only []
  split_ifs
  · rfl
  · cases W.FS.denied Path <;> rfl

theorem removeTempFiles_removals (N : BitcodeNodeTy) (Cfg : ConfigTy) (W : WorldTy) :
    (N.removeTempFiles Cfg W).Removals =
      W.Removals ++ (if Cfg.DisableTempFilesRemoval then [] else tempFilesOf N) := by
  unfold BitcodeNodeTy.removeTempFiles tempFilesOf
  cases Cfg.DisableTempFilesRemoval
  · cases N.NeedsDeletion <;> simp [Remove_removals]
  · simp

theorem RemoveTempFiles_removals (Cfg : ConfigTy) (M : BitcodeNodeMapTy) (W : WorldTy) :
    (RemoveTempFiles Cfg M W).Removals =
      W.Removals ++ (if Cfg.DisableTempFilesRemoval then []
        else (M.map (fun e => tempFilesOf e.2)).flatten) := by
  unfold RemoveTempFiles
  induction M generalizing W with
  | nil => cases Cfg.DisableTempFilesRemoval <;> simp
  | cons e M ih =>
    rw [List.foldl_cons, ih, removeTempFiles_removals]
    cases Cfg.DisableTempFilesRemoval <;> simp

theorem dtltoPerformMockCodegen_removals (W : WorldTy) (L : List dtltoBitcodeNodeTy) :
    (dtltoPerformMockCodegen W L).2.Removals = W.Removals := by
  unfold dtltoPerformMockCodegen
  simp only []
  induction L generalizing W with
  | nil => rfl
  | cons N L ih =>
    rw [List.foldl_cons, ih]
    split_ifs <;> rfl

theorem hostLosingDirectory_keeps : hostLosingDirectory.BackendKeepsRemovals := by
  intro Path f hf
  simp only [hostLosingDirectory, hostWith, Except.ok.injEq, Option.some.injEq] at hf
  subst hf
  intro _ L _ W
  exact dtltoPerformMockCodegen_removals W L

/-- C11, as the code has it: the scope guard of `codeGenImpl` is constructed
after the registry was built. On every exit path after that (failure of the
analysis, failure to reach the plugin, backend failure, harvest errors,
success) the cleanup runs exactly once: for every registered unit, in registry
order, the removal of its summary index path and of its native object path
(and of its module path when it needs deletion) is attempted once, unless the
removal of temporary files is disabled, in which case none is attempted. When
building the registry fails, the function returns before the guard exists and
no removal is attempted. -/
theorem codeGenImpl_cleanup (Host : HostTy)
    (std_sort : (dtltoBitcodeNodeTy → dtltoBitcodeNodeTy → Bool) →
      List dtltoBitcodeNodeTy → List dtltoBitcodeNodeTy)
    (Cfg : ConfigTy) (LTOObj : LTOTy) (W : WorldTy) (Out : OutcomeTy)
    (hframe : Host.BackendKeepsRemovals)
    (hrun : codeGenImpl Host std_sort Cfg LTOObj W = some Out) :
    ((initBitcodeModulesMap Host Cfg).1 ≠ [] →
      Out.Result = (initBitcodeModulesMap Host Cfg).1
      ∧ Out.BcNodeMap = (initBitcodeModulesMap Host Cfg).2
      ∧ Out.World.Removals = W.Removals)
    ∧ ((initBitcodeModulesMap Host Cfg).1 = [] →
      Out.BcNodeMap.map (fun e => (e.1, tempFilesOf e.2)) =
        (initBitcodeModulesMap Host Cfg).2.map (fun e => (e.1, tempFilesOf e.2))
      ∧ Out.World.Removals =
        W.Removals ++
          (if Cfg.DisableTempFilesRemoval then []
           else ((initBitcodeModulesMap Host Cfg).2.map (fun e => tempFilesOf e.2)).flatten)) := by
  unfold codeGenImpl at hrun
  simp only [] at hrun
  constructor
  · intro hinit
    rw [if_pos hinit] at hrun
    simp only [Option.some.injEq] at hrun
    subst hrun
    exact ⟨rfl, rfl, rfl⟩
  · intro hinit
    rw [if_neg (by simp [hinit])] at hrun
    cases hg : codeGenGuarded Host std_sort Cfg LTOObj (initBitcodeModulesMap Host Cfg).2 W with
    | none => simp [hg] at hrun
    | some G =>
      simp only [hg, Option.some.injEq] at hrun
      subst hrun
      obtain ⟨a, b⟩ := codeGenGuarded_frame (fun e => (e.1, tempFilesOf e.2))
        (fun _ _ _ _ => rfl) (fun _ _ => rfl) Host std_sort Cfg LTOObj _ W G hframe hg
      obtain ⟨c, _⟩ := codeGenGuarded_frame (fun e => tempFilesOf e.2)
        (fun _ _ _ _ => rfl) (fun _ _ => rfl) Host std_sort Cfg LTOObj _ W G hframe hg
      refine ⟨a, ?_⟩
      simp only []
      rw [RemoveTempFiles_removals, b, c]

/-- C11 on a session whose second input cannot be made absolute: the archive
member registered before it needs deletion and its copy exists, the function
returns the error, and no removal was attempted. -/
theorem codeGenImpl_cleanup_witness :
    ∃ Out, lostDirectoryOutcome = some Out
      ∧ memberThenFile.1.DisableTempFilesRemoval = false
      ∧ memberThenFile.2.FS.files "a.o.1F.o" = some (FileEntry.file "bbbb")
      ∧ Out.Result = [ErrorInfo.cantMakeAbsolute "No such file or directory"]
      ∧ Out.BcNodeMap.map (fun e => (e.1, e.2.ModulePath, e.2.NeedsDeletion)) =
          [("a.o.1F.o", "a.o.1F.o", true)]
      ∧ Out.World.Removals = []
      ∧ Out.World.FS.files "a.o.1F.o" = some (FileEntry.file "bbbb")
      ∧ ((initBitcodeModulesMap hostLosingDirectory memberThenFile.1).1 ≠ [] →
          Out.Result = (initBitcodeModulesMap hostLosingDirectory memberThenFile.1).1
          ∧ Out.BcNodeMap = (initBitcodeModulesMap hostLosingDirectory memberThenFile.1).2
          ∧ Out.World.Removals = memberThenFile.2.Removals) := by
  have h1 : lostDirectoryOutcome.map (fun o => o.Result) =
      some [ErrorInfo.cantMakeAbsolute "No such file or directory"] := by decide
  have h2 : lostDirectoryOutcome.map (fun o =>
      o.BcNodeMap.map (fun e => (e.1, e.2.ModulePath, e.2.NeedsDeletion))) =
      some [("a.o.1F.o", "a.o.1F.o", true)] := by decide
  have h3 : lostDirectoryOutcome.map (fun o => o.World.Removals) = some [] := by decide
  have h4 : lostDirectoryOutcome.map (fun o => o.World.FS.files "a.o.1F.o") =
      some (some (FileEntry.file "bbbb")) := by decide
  cases hrun : lostDirectoryOutcome with
  | none =>
    rw [hrun] at h1
    simp at h1
  | some Out =>
    rw [hrun] at h1 h2 h3 h4
    simp only [Option.map_some', Option.some.injEq] at h1 h2 h3 h4
    exact ⟨Out, rfl, by decide, by decide, h1, h2, h3, h4,
      (codeGenImpl_cleanup hostLosingDirectory insertionStdSort memberThenFile.1 scenarioALTO
        memberThenFile.2 Out hostLosingDirectory_keeps hrun).1⟩

/-! ### Derived paths -/

theorem string_append_right_cancel (a b x : String) (h : a ++ x = b ++ x) : a = b := by
  have h1 := congrArg String.data h
  simp only [String.data_append] at h1
  exact String.ext (List.append_cancel_right h1)

theorem string_last_ne (a b x y : String) (h : x.data.getLast? ≠ y.data.getLast?)
    (hx : x.data ≠ []) (hy : y.data ≠ []) : a ++ x ≠ b ++ y := by
  intro e
  apply h
  have h1 := congrArg (fun s => s.data.getLast?) e
  simp only [String.data_append] at h1
  obtain ⟨c, t, hc⟩ := List.exists_cons_of_ne_nil hx
  obtain ⟨d, u, hd⟩ := List.exists_cons_of_ne_nil hy
  rw [hc, hd, getLast?_append_cons, getLast?_append_cons] at h1
  rw [hc, hd]
  exact h1

theorem new_derivedPaths (ProcessId : Nat) (ModId ModPath : String) (ModSize : Nat)
    (Triple : String) (InArchive : Bool) :
    (BitcodeNodeTy.new ProcessId ModId ModPath ModSize Triple InArchive).DerivedPaths
      ProcessId := by
  unfold BitcodeNodeTy.DerivedPaths BitcodeNodeTy.new
  simp only [String.append_assoc]
  exact ⟨trivial, trivial⟩

theorem mem_insert_or_assign (M : BitcodeNodeMapTy) (k : String) (v : BitcodeNodeTy)
    (e : String × BitcodeNodeTy) (h : e ∈ M.insert_or_assign k v) : e ∈ M ∨ e = (k, v) := by
  unfold BitcodeNodeMapTy.insert_or_assign at h
  cases hf : M.find k with
  | none =>
    rw [hf] at h
    rcases List.mem_append.mp h with h1 | h1
    · exact Or.inl h1
    · exact Or.inr (List.mem_singleton.mp h1)
  | some w =>
    rw [hf] at h
    exact mem_assign M k v e h

theorem initLoop_derivedPaths (Host : HostTy) (Inputs : List InputFile) (M : BitcodeNodeMapTy)
    (hM : ∀ e ∈ M, e.2.DerivedPaths Host.ProcessId) :
    ∀ e ∈ (initBitcodeModulesMapLoop Host Inputs M).2, e.2.DerivedPaths Host.ProcessId := by
  induction Inputs generalizing M with
  | nil => exact hM
  | cons Input rest ih =>
    unfold initBitcodeModulesMapLoop
    simp only []
    cases hm : Host.make_absolute Input.getName with
    | error msg => exact hM
    | ok ModulePath =>
      apply ih
      intro e he
      rcases mem_insert_or_assign M _ _ e he with h | h
      · exact hM e h
      · rw [h]
        exact new_derivedPaths _ _ _ _ _ _

theorem derivedPaths_nodup (ProcessId : Nat) (A B : BitcodeNodeTy)
    (hA : A.DerivedPaths ProcessId) (hB : B.DerivedPaths ProcessId)
    (hne : A.ModulePath ≠ B.ModulePath) :
    [A.SummaryIndexPath, A.NativeObjectPath, B.SummaryIndexPath, B.NativeObjectPath].Nodup := by
  obtain ⟨a1, a2⟩ := hA
  obtain ⟨b1, b2⟩ := hB
  have hsn : ∀ x y : String, x ++ ".thinlto.bc" ≠ y ++ ".native.o" :=
    fun x y => string_last_ne x y _ _ (by decide) (by decide) (by decide)
  have hcancel : ∀ ext : String,
      A.ModulePath ++ "." ++ utohexstr ProcessId ++ ext ≠
        B.ModulePath ++ "." ++ utohexstr ProcessId ++ ext := by
    intro ext e
    exact hne (string_append_right_cancel _ _ _
      (string_append_right_cancel _ _ _ (string_append_right_cancel _ _ _ e)))
  rw [a1, a2, b1, b2]
  simp only [List.nodup_cons, List.mem_cons, List.mem_singleton, List.not_mem_nil,
    List.nodup_nil, not_or, or_false, and_true, not_false_eq_true]
  refine ⟨⟨hsn _ _, hcancel _, hsn _ _⟩, ⟨fun e => hsn _ _ e.symm, hcancel _⟩, hsn _ _⟩

/-- C14: within one session every unit's derived paths are its module path, a
dot, the process id in hexadecimal and `.thinlto.bc` or `.native.o`; for two
units with different module paths the four derived paths are pairwise
distinct. This holds for the registry as built and as the thin link leaves it,
from which the work items are taken. -/
theorem derived_paths_disjoint (Host : HostTy) (Cfg : ConfigTy) (LTOObj : LTOTy)
    (W W1 : WorldTy) (E : Error) (M1 : BitcodeNodeMapTy)
    (hlink : thinLink LTOObj (initBitcodeModulesMap Host Cfg).2 W = some (E, M1, W1)) :
    (∀ e ∈ (initBitcodeModulesMap Host Cfg).2, e.2.DerivedPaths Host.ProcessId)
    ∧ (∀ e ∈ M1,
        e.2.SummaryIndexPath =
          e.2.ModulePath ++ "." ++ utohexstr Host.ProcessId ++ ".thinlto.bc"
        ∧ e.2.NativeObjectPath =
          e.2.ModulePath ++ "." ++ utohexstr Host.ProcessId ++ ".native.o")
    ∧ (∀ e1 ∈ M1, ∀ e2 ∈ M1, e1.2.ModulePath ≠ e2.2.ModulePath →
        [e1.2.SummaryIndexPath, e1.2.NativeObjectPath,
         e2.2.SummaryIndexPath, e2.2.NativeObjectPath].Nodup) := by
  have h0 : ∀ e ∈ (initBitcodeModulesMap Host Cfg).2, e.2.DerivedPaths Host.ProcessId :=
    initLoop_derivedPaths Host Cfg.InputFiles [] (by intro e he; simp at he)
  have h1 : ∀ e ∈ M1, e.2.DerivedPaths Host.ProcessId := by
    intro e he
    obtain ⟨a, _⟩ := thinLink_frame
      (fun e => (e.2.ModulePath, e.2.SummaryIndexPath, e.2.NativeObjectPath))
      (fun _ _ _ _ => rfl) LTOObj _ M1 W W1 E hlink
    have hm : (e.2.ModulePath, e.2.SummaryIndexPath, e.2.NativeObjectPath) ∈
        M1.map (fun e => (e.2.ModulePath, e.2.SummaryIndexPath, e.2.NativeObjectPath)) :=
      List.mem_map.mpr ⟨e, he, rfl⟩
    rw [a] at hm
    obtain ⟨e0, he0, heq⟩ := List.mem_map.mp hm
    simp only [Prod.mk.injEq] at heq
    obtain ⟨q1, q2, q3⟩ := heq
    have := h0 e0 he0
    unfold BitcodeNodeTy.DerivedPaths at this ⊢
    rw [← q1, ← q2, ← q3]
    exact this
  exact ⟨h0, h1, fun e1 he1 e2 he2 hne =>
    derivedPaths_nodup Host.ProcessId e1.2 e2.2 (h1 e1 he1) (h1 e2 he2) hne⟩

/-- C14 on scenario A: the derived paths of `a.bc`, `b.bc` and `c.bc` in the
process `0x1F`. -/
theorem derived_paths_disjoint_witness :
    ∃ M1 W1,
      thinLink scenarioALTO (initBitcodeModulesMap (hostWith mockBackend) scenarioAConfig).2
        emptyWorld = some ([], M1, W1)
      ∧ M1.map (fun e => (e.2.ModulePath, e.2.SummaryIndexPath, e.2.NativeObjectPath)) =
          [("/w/a.bc", "/w/a.bc.1F.thinlto.bc", "/w/a.bc.1F.native.o"),
           ("/w/b.bc", "/w/b.bc.1F.thinlto.bc", "/w/b.bc.1F.native.o"),
           ("/w/c.bc", "/w/c.bc.1F.thinlto.bc", "/w/c.bc.1F.native.o")]
      ∧ ((∀ e ∈ (initBitcodeModulesMap (hostWith mockBackend) scenarioAConfig).2,
            e.2.DerivedPaths (hostWith mockBackend).ProcessId)
        ∧ (∀ e ∈ M1,
            e.2.SummaryIndexPath =
              e.2.ModulePath ++ "." ++ utohexstr (hostWith mockBackend).ProcessId ++
                ".thinlto.bc"
            ∧ e.2.NativeObjectPath =
              e.2.ModulePath ++ "." ++ utohexstr (hostWith mockBackend).ProcessId ++
                ".native.o")
        ∧ (∀ e1 ∈ M1, ∀ e2 ∈ M1, e1.2.ModulePath ≠ e2.2.ModulePath →
            [e1.2.SummaryIndexPath, e1.2.NativeObjectPath,
             e2.2.SummaryIndexPath, e2.2.NativeObjectPath].Nodup)) := by
  have h1 : (thinLink scenarioALTO
      (initBitcodeModulesMap (hostWith mockBackend) scenarioAConfig).2 emptyWorld).map
      (fun r => (r.1, r.2.1.map
        (fun e => (e.2.ModulePath, e.2.SummaryIndexPath, e.2.NativeObjectPath)))) =
      some ([], [("/w/a.bc", "/w/a.bc.1F.thinlto.bc", "/w/a.bc.1F.native.o"),
           ("/w/b.bc", "/w/b.bc.1F.thinlto.bc", "/w/b.bc.1F.native.o"),
           ("/w/c.bc", "/w/c.bc.1F.thinlto.bc", "/w/c.bc.1F.native.o")]) := by
    decide
  cases hlink : thinLink scenarioALTO
      (initBitcodeModulesMap (hostWith mockBackend) scenarioAConfig).2 emptyWorld with
  | none =>
    rw [hlink] at h1
    simp at h1
  | some R =>
    obtain ⟨E, M1, W1⟩ := R
    rw [hlink] at h1
    simp only [Option.map_some', Option.some.injEq, Prod.mk.injEq] at h1
    obtain ⟨hE, hM⟩ := h1
    subst hE
    exact ⟨M1, W1, rfl, hM,
      derived_paths_disjoint (hostWith mockBackend) scenarioAConfig scenarioALTO emptyWorld W1
        [] M1 hlink⟩

/-! ### The import lists -/

theorem initLoop_all (P : BitcodeNodeTy → Prop)
    (hnew : ∀ pid id path size triple arch, P (BitcodeNodeTy.new pid id path size triple arch))
    (Host : HostTy) (Inputs : List InputFile) (M : BitcodeNodeMapTy)
    (hM : ∀ e ∈ M, P e.2) :
    ∀ e ∈ (initBitcodeModulesMapLoop Host Inputs M).2, P e.2 := by
  induction Inputs generalizing M with
  | nil => exact hM
  | cons Input rest ih =>
    unfold initBitcodeModulesMapLoop
    simp only []
    cases hm : Host.make_absolute Input.getName with
    | error msg => exact hM
    | ok ModulePath =>
      apply ih
      intro e he
      rcases mem_insert_or_assign M _ _ e he with h | h
      · exact hM e h
      · rw [h]
        exact hnew _ _ _ _ _ _

theorem thinLink_ok_loop (LTOObj : LTOTy) (Slots : Nat → TaskSlot) (M M1 : BitcodeNodeMapTy)
    (W W1 : WorldTy) (hslots : LTOObj.run = Except.ok Slots)
    (h : thinLink LTOObj M W = some ([], M1, W1)) :
    thinLinkLoop Slots (LTOObj.MaxTasks - 1) 1 (M, W) = some (M1, W1) := by
  unfold thinLink at h
  simp only [hslots] at h
  split_ifs at h with h0
  cases hl : thinLinkLoop Slots (LTOObj.MaxTasks - 1) 1 (M, W) with
  | none => simp [hl] at h
  | some S =>
    obtain ⟨M2, W2⟩ := S
    simp only [hl, Option.some.injEq, Prod.mk.injEq, true_and] at h
    rw [h.1, h.2]

/-- C13, as the code has it: `ImportsListSize` is never written. Before the
analysis neither the count nor the array of a unit was written; the work item
that the backend gets for the unit of task slot `I` carries the imports of
that slot as `ImportsList`, in the same order, and an `ImportsListSize` that
no code has set. -/
theorem codeGenImpl_imports (Host : HostTy)
    (std_sort : (dtltoBitcodeNodeTy → dtltoBitcodeNodeTy → Bool) →
      List dtltoBitcodeNodeTy → List dtltoBitcodeNodeTy)
    (Cfg : ConfigTy) (LTOObj : LTOTy) (W : WorldTy) (Slots : Nat → TaskSlot)
    (Out : OutcomeTy) (Call : PluginCallTy)
    (hsort : StdSortContract std_sort)
    (hslots : LTOObj.run = Except.ok Slots)
    (hkeys : ∀ I, 1 ≤ I → I < LTOObj.MaxTasks → (Slots I).ModuleName ≠ "" →
      (Slots I).ModuleName ∈ (initBitcodeModulesMap Host Cfg).2.map Prod.fst)
    (hdist : ∀ I J, 1 ≤ I → I < LTOObj.MaxTasks → 1 ≤ J → J < LTOObj.MaxTasks → I ≠ J →
      (Slots I).ModuleName ≠ "" → (Slots I).ModuleName ≠ (Slots J).ModuleName)
    (hrun : codeGenImpl Host std_sort Cfg LTOObj W = some Out)
    (hcall : Out.PluginCall = some Call) :
    (∀ e ∈ (initBitcodeModulesMap Host Cfg).2,
        e.2.ImportsListSize = none ∧ e.2.ImportsList = none)
    ∧ (∀ w ∈ Call.BitcodesList, w.ImportsListSize = none)
    ∧ (∀ I, 1 ≤ I → I < LTOObj.MaxTasks → (Slots I).ModuleName ≠ "" →
        ∃ w ∈ Call.BitcodesList, w.ModuleId = (Slots I).ModuleName
          ∧ w.TaskNumber = some I
          ∧ w.ImportsList = some (Slots I).ImportsFilesList
          ∧ w.ImportsListSize = none) := by
  have h0 : ∀ e ∈ (initBitcodeModulesMap Host Cfg).2,
      e.2.ImportsListSize = none ∧ e.2.ImportsList = none :=
    initLoop_all (fun N => N.ImportsListSize = none ∧ N.ImportsList = none)
      (fun _ _ _ _ _ _ => ⟨rfl, rfl⟩) Host Cfg.InputFiles [] (by intro e he; simp at he)
  obtain ⟨hwf0, _⟩ := initBitcodeModulesMap_inv Host Cfg
  obtain ⟨M1, W1, _, hlink, _, hl, _⟩ :=
    codeGenImpl_reached_plugin Host std_sort Cfg LTOObj W Out Call hrun hcall
  obtain ⟨hperm, _⟩ := sortedBitcodesList_spec std_sort hsort M1
  rw [← hl] at hperm
  obtain ⟨hsz, _⟩ := thinLink_frame (fun e => e.2.ImportsListSize) (fun _ _ _ _ => rfl)
    LTOObj _ M1 W W1 [] hlink
  have h1 : ∀ e ∈ M1, e.2.ImportsListSize = none := by
    intro e he
    have hm : e.2.ImportsListSize ∈ M1.map (fun e => e.2.ImportsListSize) :=
      List.mem_map.mpr ⟨e, he, rfl⟩
    rw [hsz] at hm
    obtain ⟨e0, he0, heq⟩ := List.mem_map.mp hm
    rw [← heq]
    exact (h0 e0 he0).1
  refine ⟨h0, ?_, ?_⟩
  · intro w hw
    obtain ⟨e, he, _, hew⟩ := (mem_collect M1 w).mp (hperm.mem_iff.mp hw)
    rw [← hew]
    exact h1 e he
  · intro I a b c
    have hloop := thinLink_ok_loop LTOObj Slots _ M1 W W1 hslots hlink
    obtain ⟨M2, W2, e1, _, e3, _⟩ := thinLinkLoop_visits Slots (LTOObj.MaxTasks - 1) 1
      (initBitcodeModulesMap Host Cfg).2 W
      (fun J a b c => hkeys J a (by omega) c)
      (fun J K a b c d => hdist J K a (by omega) c (by omega))
    rw [hloop] at e1
    simp only [Option.some.injEq, Prod.mk.injEq] at e1
    obtain ⟨hM, _⟩ := e1
    subst hM
    obtain ⟨N0, f1, f2⟩ := e3 I a (by omega) c
    have hmem := find_some_mem M1 _ _ f2
    have hid : N0.ModuleId = (Slots I).ModuleName := hwf0.2 _ (find_some_mem _ _ N0 f1)
    refine ⟨(visitedNode N0 I (Slots I).ImportsFilesList).todtltoBitcodeNodeTy, ?_, hid,
      rfl, rfl, ?_⟩
    · exact hperm.mem_iff.mpr ((mem_collect M1 _).mpr ⟨_, hmem, rfl, rfl⟩)
    · exact h1 _ hmem

/-- C13 on scenario A with imports: `a.bc` of task slot 1 imports `c.bc` and
`b.bc`; its work item carries that list and a count that was never set. -/
theorem codeGenImpl_imports_witness :
    ∃ Out Call, importingOutcome = some Out ∧ Out.PluginCall = some Call
      ∧ (initBitcodeModulesMap (hostWith mockBackend) scenarioAConfig).2.map
          (fun e => (e.1, e.2.ImportsListSize, e.2.ImportsList)) =
          [("a.bc", none, none), ("b.bc", none, none), ("c.bc", none, none)]
      ∧ Call.BitcodesList.map (fun w => (w.ModuleId, w.ImportsListSize, w.ImportsList)) =
          [("b.bc", none, some []), ("c.bc", none, some ["a.bc"]),
           ("a.bc", none, some ["c.bc", "b.bc"])]
      ∧ (∀ e ∈ (initBitcodeModulesMap (hostWith mockBackend) scenarioAConfig).2,
          e.2.ImportsListSize = none ∧ e.2.ImportsList = none)
      ∧ (∀ w ∈ Call.BitcodesList, w.ImportsListSize = none)
      ∧ (∀ I, 1 ≤ I → I < importingLTO.MaxTasks → (importingSlots I).ModuleName ≠ "" →
          ∃ w ∈ Call.BitcodesList, w.ModuleId = (importingSlots I).ModuleName
            ∧ w.TaskNumber = some I
            ∧ w.ImportsList = some (importingSlots I).ImportsFilesList
            ∧ w.ImportsListSize = none) := by
  have h0 : importingOutcome.bind (fun o => o.PluginCall.map (fun c =>
      c.BitcodesList.map (fun w => (w.ModuleId, w.ImportsListSize, w.ImportsList)))) =
      some [("b.bc", none, some []), ("c.bc", none, some ["a.bc"]),
            ("a.bc", none, some ["c.bc", "b.bc"])] := by
    decide
  cases hrun : importingOutcome with
  | none =>
    rw [hrun] at h0
    simp at h0
  | some Out =>
    rw [hrun] at h0
    simp only [Option.some_bind, Option.map_eq_some'] at h0
    obtain ⟨Call, hcall, hl⟩ := h0
    obtain ⟨a, b, c⟩ := codeGenImpl_imports (hostWith mockBackend) insertionStdSort
      scenarioAConfig importingLTO emptyWorld importingSlots Out Call
      insertionStdSort_contract rfl
      (by
        intro I h1 h2 _
        have h3 : I < 4 := h2
        interval_cases I <;> decide)
      (by
        intro I J h1 h2 h3 h4 h5 _
        have h6 : I < 4 := h2
        have h7 : J < 4 := h4
        interval_cases I <;> interval_cases J <;> first | decide | exact absurd rfl h5)
      hrun hcall
    exact ⟨Out, Call, rfl, hcall, by decide, hl, a, b, c⟩

/-! ### The local plugin -/

theorem mock_foldl_spec (L : List dtltoBitcodeNodeTy) (W : WorldTy)
    (hfresh : ∀ N ∈ L, W.FS.files N.NativeObjectPath = none
      ∧ W.FS.denied N.NativeObjectPath = none)
    (hdist : L.Pairwise (fun a b => a.NativeObjectPath ≠ b.NativeObjectPath)) :
    (∀ N ∈ L, (dtltoPerformMockCodegen W L).2.FS.files N.NativeObjectPath =
        some (FileEntry.file N.ModuleId))
    ∧ (∀ p, (∀ N ∈ L, N.NativeObjectPath ≠ p) →
        (dtltoPerformMockCodegen W L).2.FS.files p = W.FS.files p)
    ∧ (dtltoPerformMockCodegen W L).2.FS.denied = W.FS.denied
    ∧ (dtltoPerformMockCodegen W L).2.Diags = W.Diags := by
  induction L generalizing W with
  | nil =>
    refine ⟨?_, fun _ _ => rfl, rfl, rfl⟩
    intro N hN
    simp at hN
  | cons N L ih =>
    obtain ⟨hN1, hN2⟩ := hfresh N (List.mem_cons_self _ _)
    rw [List.pairwise_cons] at hdist
    obtain ⟨hNL, hL⟩ := hdist
    have hstep : (dtltoPerformMockCodegen W (N :: L)).2 =
        (dtltoPerformMockCodegen
          { W with FS := W.FS.write N.NativeObjectPath N.ModuleId } L).2 := by
      simp [dtltoPerformMockCodegen, FileSystem.exists, hN1, hN2]
    have hfresh1 : ∀ N1 ∈ L,
        ({ W with FS := W.FS.write N.NativeObjectPath N.ModuleId } : WorldTy).FS.files
            N1.NativeObjectPath = none
        ∧ ({ W with FS := W.FS.write N.NativeObjectPath N.ModuleId } : WorldTy).FS.denied
            N1.NativeObjectPath = none := by
      intro N1 h1
      obtain ⟨a, b⟩ := hfresh N1 (List.mem_cons_of_mem _ h1)
      refine ⟨?_, b⟩
      simp only [FileSystem.write]
      rw [if_neg (fun e => hNL N1 h1 e.symm)]
      exact a
    obtain ⟨i1, i2, i3, i4⟩ := ih _ hfresh1 hL
    rw [hstep]
    refine ⟨?_, ?_, i3, i4⟩
    · intro N1 h1
      rcases List.mem_cons.mp h1 with h2 | h2
      · subst h2
        rw [i2 _ (fun N2 h3 => (hNL N2 h3).symm)]
        simp [FileSystem.write]
      · exact i1 N1 h2
    · intro p hp
      rw [i2 p (fun N2 h3 => hp N2 (List.mem_cons_of_mem _ h3))]
      simp only [FileSystem.write]
      rw [if_neg (fun e => hp N (List.mem_cons_self _ _) e.symm)]

/-- C12, as the code has it: `dtltoPerformCodegen` looks up clang before it
looks at the test marker. With the backend `local::test` and no clang on the
host it returns the error code 2 of the lookup and writes no file; and with
clang, a native object path that exists already keeps its content, because
the mock code generator only creates new files. -/
theorem dtltoPerformCodegen_test_counterexample :
    "::test".data <:+: "local::test".data
    ∧ (dtltoPerformCodegen toolsWithoutClang "local::test" twoItems [] emptyWorld).1 = 2
    ∧ (dtltoPerformCodegen toolsWithoutClang "local::test" twoItems []
        emptyWorld).2.FS.files "/w/first.bc.1F.native.o" = none
    ∧ (dtltoPerformCodegen toolsWithoutClang "local::test" twoItems []
        emptyWorld).2.FS.files "/w/second.bc.1F.native.o" = none
    ∧ twoItems.map (fun N => (N.ModuleId, N.NativeObjectPath)) =
        [("first.bc", "/w/first.bc.1F.native.o"), ("second.bc", "/w/second.bc.1F.native.o")]
    ∧ (dtltoPerformCodegen toolsWithClang "local::test" twoItems []
        staleObjectWorld).2.FS.files "/w/first.bc.1F.native.o" =
        some (FileEntry.file "old") := by
  refine ⟨?_, ?_, ?_, ?_, ?_, ?_⟩ <;> decide

/-- C12 amended: whenever the backend identifier contains `::test`,
`dtltoPerformCodegen` first looks up clang: if clang is not found it reports
that and returns the error code of the lookup without writing a file; if clang
is found it runs the mock code generator, whatever the arguments, and returns
0. The mock code generator creates new files only: when no item's native
object path exists, none is denied and the paths are pairwise distinct, each
item's path holds afterwards a file whose content is the item's module id, no
other path changed and nothing was reported. -/
theorem dtltoPerformCodegen_test_mode (Tools : LocalToolsTy) (DbsName : String)
    (BitcodeNodes : List dtltoBitcodeNodeTy) (Argv : List String) (W : WorldTy)
    (htest : "::test".data <:+: DbsName.data) :
    (∀ Value Message, Tools.findProgramByName "clang" = Except.error (Value, Message) →
      dtltoPerformCodegen Tools DbsName BitcodeNodes Argv W =
        (Value, { W with Diags := W.Diags ++ ["Failed to find clang: " ++ Message] }))
    ∧ (∀ ClangPath, Tools.findProgramByName "clang" = Except.ok ClangPath →
      dtltoPerformCodegen Tools DbsName BitcodeNodes Argv W =
        dtltoPerformMockCodegen W BitcodeNodes
      ∧ (dtltoPerformCodegen Tools DbsName BitcodeNodes Argv W).1 = 0
      ∧ ((∀ N ∈ BitcodeNodes, W.FS.files N.NativeObjectPath = none
            ∧ W.FS.denied N.NativeObjectPath = none) →
          BitcodeNodes.Pairwise (fun a b => a.NativeObjectPath ≠ b.NativeObjectPath) →
          (∀ N ∈ BitcodeNodes,
            (dtltoPerformCodegen Tools DbsName BitcodeNodes Argv W).2.FS.files
              N.NativeObjectPath = some (FileEntry.file N.ModuleId))
          ∧ (∀ p, (∀ N ∈ BitcodeNodes, N.NativeObjectPath ≠ p) →
              (dtltoPerformCodegen Tools DbsName BitcodeNodes Argv W).2.FS.files p =
                W.FS.files p)
          ∧ (dtltoPerformCodegen Tools DbsName BitcodeNodes Argv W).2.Diags = W.Diags)) := by
  constructor
  · intro Value Message h
    simp only [dtltoPerformCodegen, h]
  · intro ClangPath h
    have hm : dtltoPerformCodegen Tools DbsName BitcodeNodes Argv W =
        dtltoPerformMockCodegen W BitcodeNodes := by
      simp only [dtltoPerformCodegen, h, htest, decide_True, if_true]
    rw [hm]
    refine ⟨rfl, rfl, ?_⟩
    intro hfresh hdist
    obtain ⟨a, b, _, d⟩ := mock_foldl_spec BitcodeNodes W hfresh hdist
    exact ⟨a, b, d⟩

/-- C12 amended on scenario C: two items on a host with clang; the call
returns 0, both native object files hold the ids afterwards, and the harvester
of a whole session with the backend `local::test` reads both back. -/
theorem dtltoPerformCodegen_test_mode_witness :
    scenarioCOutcome.map (fun o => o.Result) = some []
    ∧ scenarioCOutcome.map (fun o => o.AddedBuffers) =
        some [{ Task := some 1, ModuleName := "first.bc", Buffer := "first.bc" },
              { Task := some 2, ModuleName := "second.bc", Buffer := "second.bc" }]
    ∧ twoItems.map (fun N => (N.ModuleId, N.NativeObjectPath)) =
        [("first.bc", "/w/first.bc.1F.native.o"), ("second.bc", "/w/second.bc.1F.native.o")]
    ∧ (dtltoPerformCodegen toolsWithClang "local::test" twoItems ["-O2"] emptyWorld).1 = 0
    ∧ (∀ N ∈ twoItems,
        (dtltoPerformCodegen toolsWithClang "local::test" twoItems ["-O2"]
          emptyWorld).2.FS.files N.NativeObjectPath = some (FileEntry.file N.ModuleId))
    ∧ (∀ p, (∀ N ∈ twoItems, N.NativeObjectPath ≠ p) →
        (dtltoPerformCodegen toolsWithClang "local::test" twoItems ["-O2"]
          emptyWorld).2.FS.files p = emptyWorld.FS.files p)
    ∧ (dtltoPerformCodegen toolsWithClang "local::test" twoItems ["-O2"]
        emptyWorld).2.Diags = emptyWorld.Diags := by
  obtain ⟨_, hcode, hfiles⟩ :=
    (dtltoPerformCodegen_test_mode toolsWithClang "local::test" twoItems ["-O2"] emptyWorld
      (by decide)).2 "/usr/bin/clang" rfl
  obtain ⟨a, b, c⟩ := hfiles (fun _ _ => ⟨rfl, rfl⟩) (by decide)
  exact ⟨by decide, by decide, by decide, hcode, a, b, c⟩

end dtlto
